import Mathlib

/-!
Verification of the Ram parsing pipeline (src/process.py, src/parsing/parsing.py,
src/exceptions.py) against its natural-language specification.

The embedding translates the Python source into executable Lean definitions.
Python strings are manipulated through character-list helpers so that every
definition reduces inside the kernel.  Python exceptions are modelled by the
`Err` inductive; a Python `raise` becomes an `Except.error`.  Where the source
calls an exception constructor with too few arguments (which raises `TypeError`
in Python before the intended exception is even built), the embedding returns
the corresponding `Err.typeError`.

Components that the repository imports but whose files are not present
(`lexify` from parse_linear.py, `parse_expression` / `parse_variable` from
parse_variables.py, the syntaxtrees node constructors, and the
`RamGeneralException` / `RamBlockException` classes) are modelled from the
specification; each such definition carries a doc comment starting with
`Modelled from the spec:`.
-/

namespace Ram

/-! ### Character-list string helpers mirroring Python's str methods -/

/-- Python `s.split()` helper: split on whitespace runs, dropping empties. -/
def splitWsAux : List Char → List Char → List String → List String
  | [], [], acc => acc.reverse
  | [], cur, acc => (String.mk cur.reverse :: acc).reverse
  | c :: cs, cur, acc =>
    if c.isWhitespace then
      match cur with
      | [] => splitWsAux cs [] acc
      | _ => splitWsAux cs [] (String.mk cur.reverse :: acc)
    else splitWsAux cs (c :: cur) acc

/-- Python `s.split()` (no separator): whitespace split, no empty pieces. -/
def splitWs (s : String) : List String := splitWsAux s.data [] []

/-- Does the first list start with the second one? -/
def chStarts : List Char → List Char → Bool
  | _, [] => true
  | [], _ :: _ => false
  | c :: cs, p :: ps => c == p && chStarts cs ps

/-- Substring test on character lists (Python `pat in s`). -/
def chHas : List Char → List Char → Bool
  | _, [] => true
  | [], _ :: _ => false
  | c :: cs, p :: ps => chStarts (c :: cs) (p :: ps) || chHas cs (p :: ps)

/-- Python `pat in s` for strings. -/
def strHas (s pat : String) : Bool := chHas s.data pat.data

/-- Replace every occurrence of `p` by `r`, left to right, non-overlapping.
The `Nat` counter makes the recursion structural; `chReplace` seeds it with
the list length, which always suffices because each step consumes a char. -/
def chReplaceAux : Nat → List Char → List Char → List Char → List Char
  | 0, l, _, _ => l
  | _ + 1, [], _, _ => []
  | n + 1, c :: cs, p, r =>
    if p.isEmpty then c :: cs
    else if chStarts (c :: cs) p then r ++ chReplaceAux n ((c :: cs).drop p.length) p r
    else c :: chReplaceAux n cs p r

/-- Python `s.replace(p, r)` (replaces all occurrences). -/
def pyReplace (s p r : String) : String :=
  String.mk (chReplaceAux s.data.length s.data p.data r.data)

/-- Python `s.split(sep)` for a non-empty separator: keeps empty pieces. -/
def chSplitOn : Nat → List Char → List Char → List Char → List String → List String
  | 0, l, _, cur, acc => ((String.mk cur.reverse) :: acc).reverse ++ [String.mk l]
  | _ + 1, [], _, cur, acc => ((String.mk cur.reverse) :: acc).reverse
  | n + 1, c :: cs, p, cur, acc =>
    if chStarts (c :: cs) p then
      chSplitOn n ((c :: cs).drop p.length) p [] (String.mk cur.reverse :: acc)
    else chSplitOn n cs p (c :: cur) acc

/-- Python `s.split(sep)` (sep non-empty): list of pieces between occurrences. -/
def pySplit (s sep : String) : List String :=
  if sep.isEmpty then [s] else chSplitOn (s.data.length + 1) s.data sep.data [] []

/-- Python `s.strip()`. -/
def pyStrip (s : String) : String := String.mk (s.data.dropWhile Char.isWhitespace
  |>.reverse.dropWhile Char.isWhitespace |>.reverse)

/-- Python `' '.join(xs)`. -/
def joinSp (xs : List String) : String := String.intercalate " " xs

/-- Characters of `s` strictly before the first `{` (Python `s[0:s.index('{')]`),
`none` when `{` does not occur (Python raises ValueError there). -/
def upToBrace (s : String) : Option String :=
  if strHas s "\x7b" then some (String.mk (s.data.takeWhile (fun c => c ≠ '\x7b'))) else none

/-- All-digit test used to recognise numeric literal tokens. -/
def isNumericTok (s : String) : Bool := !s.isEmpty && s.data.all Char.isDigit

/-- Numeric value of an all-digit token. -/
def digitsVal : List Char → Nat → Nat
  | [], acc => acc
  | c :: cs, acc => digitsVal cs (acc * 10 + (c.toNat - 48))

/-- Integer value of a numeric literal token. -/
def tokToInt (s : String) : Int := Int.ofNat (digitsVal s.data 0)

/-! ### Error model

Each constructor mirrors one of the exception classes of src/exceptions.py,
or a runtime error Python itself raises.  `RamGeneralException` and
`RamBlockException` are imported by the sources but their classes are not in
the given exceptions.py; they are modelled from the spec taxonomy
(GeneralError, BlockError).  `ramExprOperator` is the OperatorError of the
spec taxonomy as raised by the (missing) expression parser.  `typeError`,
`indexError`, `valueError` and `attrError` model Python's own runtime
exceptions; `recursion` models Python's `RecursionError`, raised when the
interpreter's recursion limit is exceeded (the modelled expression parser is
the recursive component it guards); `fuel` marks exhaustion of the recursion
allowance of the embedding and corresponds to no Python behaviour. -/
inductive Err where
  | ramException (line : String) (number : Int) (message : Option String)
  | ramSyntax (line : String) (number : Int) (message : Option String)
  | ramSyntaxKeyword (line : String) (number : Int) (foreign : String)
  | ramSyntaxOperator (line : String) (number : Int) (foreign : String)
  | ramName (line : String) (number : Int) (foreign : String)
  | ramBlock (message : String)
  | ramGeneral (message : String)
  | ramExprOperator (foreign : String)
  | typeError (message : String)
  | indexError
  | valueError (message : String)
  | attrError (message : String)
  | notImplemented
  | recursion
  | fuel
  deriving Repr, DecidableEq

/-- Is the exception an instance of the `RamException` taxonomy?  (Python
`isinstance(e, RamException)`.)  The modelled classes `RamBlockException`,
`RamGeneralException` and the expression parser's OperatorError belong to the
spec's flat taxonomy, so they count as Ram exceptions. -/
def Err.isRam : Err → Bool
  | .ramException .. | .ramSyntax .. | .ramSyntaxKeyword .. | .ramSyntaxOperator ..
  | .ramName .. | .ramBlock .. | .ramGeneral .. | .ramExprOperator .. => true
  | _ => false

/-- The `TypeError` Python raises when `RamSyntaxKeywordException` (or the
operator variant) is constructed with a single positional argument instead of
the required `(line, line_number, foreign)`. -/
def kwCtorTypeError : Err :=
  .typeError "RamSyntaxKeywordException.__init__ missing 2 required positional arguments"

/-- The `TypeError` Python raises when `RamSyntaxException` is constructed
with a single message argument instead of the required `(line, line_number)`
prefix. -/
def synCtorTypeError : Err :=
  .typeError "RamSyntaxException.__init__ missing 1 required positional argument"

/-- Python `str(e)`: the message each exception class builds in its
constructor (src/exceptions.py formats `Line <n>: '<line>'`, optionally
followed by ` \n     <detail>`). -/
def render : Err → String
  | .ramException l n none => "Line " ++ toString n ++ ": \x27" ++ l ++ "\x27"
  | .ramException l n (some m) =>
      "Line " ++ toString n ++ ": \x27" ++ l ++ "\x27 \n     " ++ m
  | .ramSyntax l n none => "Line " ++ toString n ++ ": \x27" ++ l ++ "\x27"
  | .ramSyntax l n (some m) =>
      "Line " ++ toString n ++ ": \x27" ++ l ++ "\x27 \n     " ++ m
  | .ramSyntaxKeyword l n f =>
      "Line " ++ toString n ++ ": \x27" ++ l ++ "\x27 \n     Keyword \x27" ++ f ++ "\x27 invalid."
  | .ramSyntaxOperator l n f =>
      "Line " ++ toString n ++ ": \x27" ++ l ++ "\x27 \n     Operator \x27" ++ f ++ "\x27 invalid."
  | .ramName l n f =>
      "Line " ++ toString n ++ ": \x27" ++ l ++ "\x27 \n     Variable \x27" ++ f ++ "\x27 not defined."
  | .ramBlock m => m
  | .ramGeneral m => m
  | .ramExprOperator f => "Operator \x27" ++ f ++ "\x27 invalid."
  | .typeError m => m
  | .indexError => "list index out of range"
  | .valueError m => m
  | .attrError m => m
  | .notImplemented => "NotImplementedError"
  | .recursion => "maximum recursion depth exceeded"
  | .fuel => "recursion allowance exhausted"

/-- Python list indexing `l[i]` for a non-negative index: `IndexError` when
out of range. -/
def pyGet (l : List α) (i : Nat) : Except Err α :=
  match l.get? i with
  | some a => .ok a
  | none => .error .indexError

/-! ### AST node model

Modelled from the spec: the syntaxtrees modules (abs.py, statements.py) are
imported by the sources but absent; §3 of the spec gives the Statement and
Expr variants.  Because the Python code passes heterogeneous Python values
(statement lists, bare statements, raw `(text, number)` tuples) into these
constructors, the model uses one dynamic `Node` universe: `pyList` is a plain
Python list value, `marker` a raw tuple, and `branch` the `(condition, body)`
pair inside an `If`.  Constructors store exactly what the caller passes, as
the spec's data model describes plain record fields. -/
inductive Node where
  | numLit (value : Int)
  | strLit (value : String)
  | boolLit (value : Bool)
  | var (name : String)
  | unaryOp (op : String) (operand : Node)
  | binOp (op : String) (left : Node) (right : Node)
  | callE (name : String) (args : List Node)
  | emptyExpr
  | display (e : Node)
  | assign (varName : String) (varType : String) (e : Node) (isReset : Bool)
  | loop (varName : String) (start : Node) (stop : Node) (body : List Node)
  | functionDef (name : String) (params : List String) (body : List Node) (rtrn : Node)
  | ifStmt (branches : List Node) (elseBody : List Node)
  | branch (cond : Node) (body : List Node)
  | pyList (items : List Node)
  | marker (line : String) (number : Int)

/-! ### Tokenizer (`lexify`), modelled from the spec -/

/-- One element of a classified line: either a kept literal word or the
tokenized remainder (a Python list of token strings). -/
inductive Elem where
  | str (s : String)
  | toks (ts : List String)
  deriving Repr, DecidableEq

/-- Push the current (reversed) token onto the accumulator if non-empty. -/
def flushTok (cur : List Char) (acc : List String) : List String :=
  match cur with
  | [] => acc
  | _ => String.mk cur.reverse :: acc

/-- Scanner behind `lexify`.  The `Nat` counter makes the recursion
structural; it is seeded with more than the character count, which always
suffices because every step consumes at least one character. -/
def lexAux : Nat → List Char → List Char → List String → List String
  | 0, rest, cur, acc => (flushTok (rest.reverse ++ cur) acc).reverse
  | _ + 1, [], cur, acc => (flushTok cur acc).reverse
  | n + 1, c :: cs, cur, acc =>
    if c.isWhitespace then lexAux n cs [] (flushTok cur acc)
    else if c = '(' || c = ')' || c = ',' then
      lexAux n cs [] (String.mk [c] :: flushTok cur acc)
    else if c = '\x22' then
      let inner := cs.takeWhile (fun d => d ≠ '\x22')
      let tok := String.mk ('\x22' :: (inner ++ ['\x22']))
      lexAux n (cs.drop (inner.length + 1)) [] (tok :: flushTok cur acc)
    else lexAux n cs (c :: cur) acc

/-- Modelled from the spec: `lexify` lives in parsing/parse_linear.py, which
is absent from the sources.  Per §4.1 it splits an expression substring into
an ordered flat token sequence, keeping quoted spans as single atomic text
tokens and treating parentheses (and argument commas) as structural
single-character tokens in the surrounding stream. -/
def lexify (s : String) : List String := lexAux (s.data.length + 1) s.data [] []

/-! ### Expression parser, modelled from the spec (§4.5) -/

/-- Token tree: parentheses grouped into nested units that bind tighter than
the surrounding tokens. -/
inductive TT where
  | tok (s : String)
  | grp (ts : List TT)

/-- Flatten classified elements into the raw token stream handed to the
expression parser; an embedded tokenized group keeps its grouping by being
wrapped in parentheses (it binds tighter, like a parenthesized span). -/
def elemsFlatten : List Elem → List String
  | [] => []
  | .str s :: r => s :: elemsFlatten r
  | .toks ts :: r => "(" :: (ts ++ ")" :: elemsFlatten r)

/-- Group a flat token list into a `TT` forest by matching parentheses with
an explicit stack; an unmatched parenthesis is a misplaced-operator failure
of the spec taxonomy. -/
def groupStrs : List String → List TT → List (List TT) → Except Err (List TT)
  | [], acc, [] => .ok acc.reverse
  | [], _, _ :: _ => .error (.ramExprOperator "(")
  | t :: rest, acc, stack =>
    if t = "(" then groupStrs rest [] (acc :: stack)
    else if t = ")" then
      match stack with
      | [] => .error (.ramExprOperator ")")
      | top :: stack2 => groupStrs rest (.grp acc.reverse :: top) stack2
    else groupStrs rest (.tok t :: acc) stack

/-- Modelled from the spec: recognized binary infix operators `+ - * / or
and is` (§4.5). -/
def isBinOpTok (s : String) : Bool :=
  s = "+" || s = "-" || s = "*" || s = "/" || s = "or" || s = "and" || s = "is"

/-- Any recognized operator token, including the unary `not`. -/
def isOpTok (s : String) : Bool := isBinOpTok s || s = "not"

/-- Is the token a quoted text literal? -/
def isQuoted (s : String) : Bool :=
  match s.data with
  | c :: _ => c = '\x22'
  | [] => false

/-- Strip the surrounding quote characters off a text-literal token. -/
def stripQuotes (s : String) : String :=
  let l := s.data.drop 1
  String.mk (if l.getLast? = some '\x22' then l.dropLast else l)

/-- Apply `k` pending unary `not`s to an operand. -/
def applyNots : Nat → Node → Node
  | 0, v => v
  | k + 1, v => applyNots k (.unaryOp "not" v)

/-- Parser state for the single left-to-right pass of §4.5: waiting for the
first operand, waiting for the operand of a pending binary operator, or
holding the value parsed so far. -/
inductive ESt where
  | start (nots : Nat)
  | afterOp (left : Node) (op : String) (nots : Nat)
  | haveVal (v : Node)

/-- Feed a parsed operand into the state (left-to-right combination: the
pending binary operator binds immediately, giving strict left associativity
without arithmetic precedence, as the spec requires). -/
def stApply : ESt → Node → ESt
  | .start k, v => .haveVal (applyNots k v)
  | .afterOp l op k, v => .haveVal (.binOp op l (applyNots k v))
  | .haveVal _, v => .haveVal v

/-- Record one more prefix `not` while an operand is awaited. -/
def stepNot : ESt → ESt
  | .start k => .start (k + 1)
  | .afterOp l op k => .afterOp l op (k + 1)
  | .haveVal v => .haveVal v

/-- Split a token-tree list at the first top-level comma token. -/
def splitComma : List TT → List TT × Option (List TT)
  | [] => ([], none)
  | .tok "," :: rest => ([], some rest)
  | t :: rest =>
    let (p, r) := splitComma rest
    (t :: p, r)

/-- Request for the expression evaluator: parse the remaining tokens from a
given state, or parse a comma-separated call-argument group.  A single
request type keeps the recursion structural in the counter. -/
inductive EReq where
  | one (st : ESt) (l : List TT)
  | args (g : List TT)

/-- Modelled from the spec: single-pass expression parse over the grouped
token stream (§4.5).  Numeric tokens become numeric literals, `true`/`false`
boolean literals, quoted tokens text literals, other non-operator tokens
variables; `not` is unary prefix; binary operators combine strictly left to
right; a parenthesized group binds tighter; an identifier immediately
followed by a parenthesized group is a call; a misplaced operator (or operand
where an operator is expected) is an OperatorError.  The `Nat` counter plays
the role of Python's recursion limit, so exhausting it is Python's
`RecursionError`; an `args` request answers with a `pyList` of the parsed
arguments. -/
def exprRun (fuel : Nat) (req : EReq) : Except Err Node :=
  match fuel, req with
  | 0, _ => .error .recursion
  | _ + 1, .one st [] =>
    (match st with
      | .haveVal v => .ok v
      | .start _ => .error (.ramExprOperator "not")
      | .afterOp _ op _ => .error (.ramExprOperator op))
  | n + 1, .one st (t :: rest) =>
    (match st with
      | .haveVal v =>
        (match t with
          | .tok s =>
            if isBinOpTok s then exprRun n (.one (.afterOp v s 0) rest)
            else .error (.ramExprOperator s)
          | .grp _ => .error (.ramExprOperator "("))
      | _ =>
        (match t with
          | .tok s =>
            if s = "not" then exprRun n (.one (stepNot st) rest)
            else if isNumericTok s then
              exprRun n (.one (stApply st (.numLit (tokToInt s))) rest)
            else if s = "true" then exprRun n (.one (stApply st (.boolLit true)) rest)
            else if s = "false" then exprRun n (.one (stApply st (.boolLit false)) rest)
            else if isQuoted s then
              exprRun n (.one (stApply st (.strLit (stripQuotes s))) rest)
            else if isOpTok s || s = "(" || s = ")" || s = "," then
              .error (.ramExprOperator s)
            else
              (match rest with
                | .grp g :: rest2 => do
                  let args ← exprRun n (.args g)
                  (match args with
                    | .pyList vs => exprRun n (.one (stApply st (.callE s vs)) rest2)
                    | _ => .error .fuel)
                | _ => exprRun n (.one (stApply st (.var s)) rest))
          | .grp g => do
            let v ← (match g with
              | [] => pure Node.emptyExpr
              | _ => exprRun n (.one (.start 0) g))
            exprRun n (.one (stApply st v) rest)))
  | _ + 1, .args [] => .ok (.pyList [])
  | n + 1, .args g =>
    (match splitComma g with
      | (piece, none) => do
        let v ← (match piece with
          | [] => pure Node.emptyExpr
          | _ => exprRun n (.one (.start 0) piece))
        .ok (.pyList [v])
      | (piece, some rest) => do
        let v ← (match piece with
          | [] => pure Node.emptyExpr
          | _ => exprRun n (.one (.start 0) piece))
        let vs ← exprRun n (.args rest)
        (match vs with
          | .pyList ws => .ok (.pyList (v :: ws))
          | _ => .error .fuel))
termination_by structural fuel

/-- Modelled from the spec: `parse_expression` lives in
parsing/parse_variables.py, absent from the sources.  It consumes the token
sequence a caller hands over (either plain token strings or a classified
line's embedded token group) and produces an `Expr` per §4.5; an empty
sequence is "no expression" (§4.1), yielding the Empty sentinel. -/
def parse_expression (xs : List Elem) : Except Err Node := do
  let flat := elemsFlatten xs
  let tts ← groupStrs flat [] []
  match tts with
  | [] => pure Node.emptyExpr
  | _ => exprRun (3 * flat.length + 8) (.one (.start 0) tts)

/-! ### Line classifier (class `Line` of parsing/parsing.py) -/

/-- Remove the first empty token-group element (Python
`if [] in line_so_far: line_so_far.remove([])`). -/
def removeFirstEmpty : List Elem → List Elem
  | [] => []
  | .toks [] :: rest => rest
  | e :: rest => e :: removeFirstEmpty rest

/-- The string a `strs` element contributes where Python reads a keyword; a
token-group (a Python list) in that position never equals a keyword. -/
def elemStr : Elem → String
  | .str s => s
  | .toks _ => ""

/-- Does position `i` hold exactly the literal word `s`? -/
def elemIsStr (l : List Elem) (i : Nat) (s : String) : Bool :=
  match l.get? i with
  | some (.str t) => t = s
  | _ => false

/-- `Line.get_line_as_list` (parsing.py:64-99): whitespace-split the line;
fewer than two words or an unknown leading keyword raise — but both `raise`
sites call the exception constructor with one argument where its
`__init__(line, line_number, ...)` needs more, so Python raises `TypeError`
instead of the intended Ram exception.  For `set`/`reset`/`send` the first
four words are kept and the rest is lexified; for `display`/`call` only the
first word is kept; an empty token group is dropped. -/
def get_line_as_list (line : String) : Except Err (List Elem) :=
  let split_list := splitWs line
  if split_list.length < 2 then .error synCtorTypeError
  else
    let keyword := split_list.headD ""
    if keyword = "set" || keyword = "reset" || keyword = "send" then
      .ok (removeFirstEmpty
        ((split_list.take 4).map .str ++ [.toks (lexify (joinSp (split_list.drop 4)))]))
    else if keyword = "display" || keyword = "call" then
      .ok (removeFirstEmpty
        ((split_list.take 1).map .str ++ [.toks (lexify (joinSp (split_list.drop 1)))]))
    else .error kwCtorTypeError

/-- A classified line (`Line.__init__` stores the raw text, the processed
list and the leading keyword). -/
structure Line where
  line : String
  number : Int
  strs : List Elem
  keyword : String
  deriving Repr, DecidableEq

/-- `Line(line, number)`: classification happens inside the constructor, so
construction itself can raise. -/
def Line.make (line : String) (number : Int) : Except Err Line := do
  let strs ← get_line_as_list line
  .ok { line := line, number := number, strs := strs,
        keyword := elemStr (strs.headD (.str "")) }

/-- Modelled from the spec: `parse_variable` lives in parse_variables.py,
absent from the sources.  Per §4.2/§3 a `set`/`reset` line carries keyword,
declared type, variable name, `to` and one tokenized expression, and builds
`Assign(var_name, declared_type, expr, is_reset)`; `is_reset` is read off the
line's leading word, the only place it is recoverable from the arguments
passed in parsing.py:115.  Any other remainder shape is the spec's
MalformedLine; the spec does not fix that error's number payload, so the
embedding reports the offending line with number `-1`. -/
def parse_variable (line : String) (vtype : Elem) (rest : List Elem) : Except Err Node :=
  match vtype, rest with
  | .str t, [.str v, .str "to", e] => do
    let ex ← parse_expression [e]
    .ok (.assign v t ex ((splitWs line).headD "" = "reset"))
  | _, _ => .error (.ramSyntax line (-1) (some "Error parsing."))

/-- `parse_return` (parsing.py:370-381): a return statement must be exactly
three elements `send back <expr>`; each of its three `raise` sites passes one
argument to a constructor that needs more, so the failure surfaces as a
Python `TypeError`. -/
def parse_return (return_list : List Elem) : Except Err Node :=
  if return_list.length ≠ 3 then .error synCtorTypeError
  else if !elemIsStr return_list 0 "send" then .error kwCtorTypeError
  else if !elemIsStr return_list 1 "back" then .error kwCtorTypeError
  else parse_expression (return_list.drop 2)

/-- `parse_display` (parsing.py:384-389): if after deleting spaces and every
occurrence of `display` the first character is a quote, the quoted remainder
is parsed as one token; otherwise the classified value is parsed. -/
def parse_display (line : String) (value : List Elem) : Except Err Node :=
  let t := pyReplace (pyReplace line " " "") "display" ""
  match t.data with
  | [] => .error .indexError
  | c :: _ =>
    if c = '\x22' then do
      let e ← parse_expression [.str (pyReplace line "display " "")]
      .ok (.display e)
    else do
      let e ← parse_expression value
      .ok (.display e)

/-- The dispatch body of `Line.parse` (parsing.py:112-127), before the
enclosing `except` clause. -/
def Line.parseInner (l : Line) : Except Err Node :=
  if l.keyword = "set" || l.keyword = "reset" then do
    let s1 ← pyGet l.strs 1
    parse_variable l.line s1 (l.strs.drop 2)
  else if l.keyword = "display" then parse_display l.line (l.strs.drop 1)
  else if l.keyword = "send" then parse_return l.strs
  else if l.keyword = "call" then parse_expression (l.strs.drop 1)
  else .error kwCtorTypeError

/-- The `except RamException` clause of `Line.parse` (parsing.py:128-129):
a propagating Ram exception is re-raised as
`RamException(self.line, self.number, e)` — unconditionally; any other
exception passes through untouched. -/
def lineCatch (line : String) (number : Int) (r : Except Err Node) : Except Err Node :=
  match r with
  | .ok v => .ok v
  | .error e =>
    if e.isRam then .error (.ramException line number (some (render e)))
    else .error e

/-- `Line.parse` (parsing.py:101-129). -/
def Line.parse (l : Line) : Except Err Node :=
  lineCatch l.line l.number (Line.parseInner l)

/-! ### Blocks (classes `Block`, `LoopBlock`, `FunctionBlock`, `IfBlock`) -/

/-- One element of a block's `block` list: a raw `(text, number)` tuple, a
classified `Line`, or a nested block object.  A block object carries its
runtime class (`cls`, the subclass `Block.__init__` rebinds to), its raw
element list, the pre-brace header, the header's first word, and the
contents computed by `evaluate_line`. -/
inductive BItem where
  | tup (line : String) (number : Int)
  | line (l : Line)
  | blk (cls : String) (block : List BItem) (header : String) (keyword : String)
        (contents : List Node)

/-- Python `l[-2]`: second element from the end, IndexError when the list is
shorter than two. -/
def pyNeg2 (l : List α) : Except Err α :=
  if l.length < 2 then .error .indexError else pyGet l (l.length - 2)

/-- `self.contents[-1].append(x)` inside `evaluate_line`: append into the
last contents entry, which must be a Python list. -/
def appendLast (contents : List Node) (v : Node) : Except Err (List Node) :=
  match contents.getLast? with
  | some (.pyList xs) => .ok (contents.dropLast ++ [.pyList (xs ++ [v])])
  | some _ => .error (.attrError "object has no attribute append")
  | none => .error .indexError

/-- `Block.__init__` keyword dispatch (parsing.py:177-185): the subclass the
object is rebound to.  An unrecognized keyword hits
`raise RamSyntaxKeywordException(self.keyword)` — a 1-argument call to a
3-argument constructor, so Python raises `TypeError` instead. -/
def blockCls (keyword : String) : Except Err String :=
  if keyword = "loop" then .ok "loop"
  else if keyword = "new" then .ok "function"
  else if keyword = "if" then .ok "if"
  else .error kwCtorTypeError

/-- The shared child-`__init__` header extraction (parsing.py:238-239,
276-277, 318-319): `header = block[0][0][0:block[0][0].index('{')]` and
`keyword = header.split()[0]`.  `block[0]` must be a raw tuple (subscripting
a Line or Block object raises TypeError), a missing `{` raises ValueError,
and an all-blank header IndexError. -/
def childHeader (block : List BItem) : Except Err (String × String) := do
  let b0 ← pyGet block 0
  match b0 with
  | .tup l _ =>
    (match upToBrace l with
      | none => .error (.valueError "substring not found")
      | some header =>
        (match splitWs header with
          | [] => .error .indexError
          | kw :: _ => .ok (header, kw)))
  | _ => .error (.typeError "object is not subscriptable")

/-- `Block(block)` as constructed on the opener tuple in create_blocks
(process.py:102): keyword dispatch, rebinding via `make_child`, and the
child's header extraction.  (With the still-singleton body the constructor's
own `evaluate_line` call is trivial and cannot fail.)  Returns the runtime
class, the header and the header keyword. -/
def Block.makeOpen (l : String) (n : Int) : Except Err (String × String × String) := do
  let kw0 ← pyGet (splitWs l) 0
  let cls ← blockCls kw0
  let (header, kw) ← childHeader [.tup l n]
  .ok (cls, header, kw)

/-- `LoopBlock.parse` (parsing.py:245-265): split the header after `from ` on
the substring `to`, lexify both sides, validate words 1 and 3 (whose failure
raises the 1-argument keyword-exception call, i.e. TypeError), then parse the
bounds and build the Loop with the contents computed by `evaluate_line`. -/
def LoopBlock.parse (header : String) (contents : List Node) : Except Err Node := do
  let header_list := splitWs header
  let loop_values ← pyGet (pySplit header "from ") 1
  let expression_normal := pySplit loop_values "to"
  let e0 ← pyGet expression_normal 0
  let e1 ← pyGet expression_normal 1
  let left := lexify e0
  let right := lexify e1
  let w1 ← pyGet header_list 1
  if w1 ≠ "with" then .error kwCtorTypeError
  else do
    let w3 ← pyGet header_list 3
    if w3 ≠ "from" then .error kwCtorTypeError
    else do
      let var_name ← pyGet header_list 2
      let start ← parse_expression (left.map .str)
      let stop ← parse_expression (right.map .str)
      .ok (.loop var_name start stop contents)

/-- Parameter-name extraction of `FunctionBlock.parse` (parsing.py:296-297):
the 5th header word stripped of spaces and parentheses, split on commas. -/
def paramNames (p4 : String) : List String :=
  pySplit (pyReplace (pyReplace (pyReplace p4 " " "") "(" "") ")" "") ","

/-- `FunctionBlock.parse` (parsing.py:283-307): the header must split into
exactly 5 words (the malformed-header raise is a 1-argument
`RamSyntaxException` call, i.e. TypeError), words 1 and 3 must be
`function`/`takes` (1-argument keyword-exception calls, i.e. TypeError); the
parameter list is the 5th word stripped of spaces and parentheses, split on
commas.  If the element before the closer is a Line whose text contains the
substring `send`, its whitespace-split is fed to `parse_return` and
`contents[0]` loses its last element; otherwise the return expression is
Empty.  The body is `contents[0]`.  (The non-list `contents[0]` fallthroughs
encode situations the Python flow never produces.) -/
def FunctionBlock.parse (header : String) (block : List BItem) (contents : List Node) :
    Except Err Node := do
  let header_list := splitWs header
  if header_list.length ≠ 5 then .error synCtorTypeError
  else do
    let w1 ← pyGet header_list 1
    if w1 ≠ "function" then .error kwCtorTypeError
    else do
      let w3 ← pyGet header_list 3
      if w3 ≠ "takes" then .error kwCtorTypeError
      else do
        let p4 ← pyGet header_list 4
        let param_names := paramNames p4
        let function_name ← pyGet header_list 2
        let last2 ← pyNeg2 block
        let isSendLine :=
          match last2 with
          | .line ll => strHas ll.line "send"
          | _ => false
        if isSendLine then do
          let lineText := match last2 with | .line ll => ll.line | _ => ""
          let rturn_expr ← parse_return ((splitWs lineText).map .str)
          let c0 ← pyGet contents 0
          (match c0 with
            | .pyList xs =>
              (match xs.getLast? with
                | none => .error .indexError
                | some _ =>
                  .ok (.functionDef function_name param_names xs.dropLast rturn_expr))
            | _ => .error (.attrError "object has no attribute pop"))
        else do
          let c0 ← pyGet contents 0
          (match c0 with
            | .pyList xs => .ok (.functionDef function_name param_names xs .emptyExpr)
            | _ => .error (.attrError "object is not a list"))

/-- Condition extraction of `IfBlock.parse` (parsing.py:327-334): delete
every `if ` occurrence, split on the substring `is`; with two pieces the
lexified sides are joined by an `is` token; the result is parsed as one
expression. -/
def ifHeaderExpr (header : String) : Except Err Node := do
  let expression_normal := pySplit (pyReplace header "if " "") "is"
  let e0 := expression_normal.headD ""
  let expression_left :=
    if expression_normal.length > 1 then
      lexify e0 ++ ["is"] ++ lexify ((expression_normal.get? 1).getD "")
    else lexify e0
  parse_expression (expression_left.map .str)

/-- Requests of the recursive block machinery: parse an item (`.parse()`),
run `IfBlock.parse` given header and block, scan a block tail for the first
tuple while parsing the items before it, collect the else-branch actions,
run the direct `IfBlock(block=…, keyword='if')` constructor, or run
`evaluate_line` (with its explicit fold state).  One request type keeps the
recursion structural in the counter. -/
inductive BReq where
  | parse (b : BItem)
  | ifp (header : String) (block : List BItem)
  | scan (items : List BItem)
  | elseScan (items : List BItem)
  | ifInit (block : List BItem)
  | evalLine (items : List BItem)
  | evalItems (items : List BItem) (created : Bool) (contents : List Node)

/-- Results of the block machinery, one constructor per request family. -/
inductive BRes where
  | node (v : Node)
  | contents (c : List Node)
  | scanRes (actions : List Node) (found : Option (String × Int × Nat))
  | initRes (header : String)

/-- The mutually recursive heart of the block parser:
`Block.parse` dispatch on the runtime class (with the base class's
NotImplementedError for any other class), `IfBlock.parse`
(parsing.py:325-367) including the recursive `else if` chain reconstruction,
its two scanning loops, the direct `IfBlock` constructor, and
`Block.evaluate_line` (parsing.py:192-212).  The structural counter bounds
the recursion depth; exhausting it yields the `fuel` marker, which no Python
behaviour corresponds to (sufficient fuel is proved separately).  The
`.error .fuel` fallthroughs after result matches encode result-shape
mismatches that cannot occur. -/
def blockRun (fuel : Nat) (req : BReq) : Except Err BRes :=
  match fuel, req with
  | 0, _ => .error .fuel
  | n + 1, .parse b =>
    (match b with
      | .line l => (Line.parse l).map .node
      | .tup _ _ => .error (.attrError "tuple object has no attribute parse")
      | .blk cls block header _ contents =>
        if cls = "loop" then (LoopBlock.parse header contents).map .node
        else if cls = "function" then (FunctionBlock.parse header block contents).map .node
        else if cls = "if" then blockRun n (.ifp header block)
        else .error .notImplemented)
  | n + 1, .ifp header block => do
    let expression ← ifHeaderExpr header
    let sres ← blockRun n (.scan (block.drop 1))
    (match sres with
      | .scanRes if_actions found =>
        (match found with
          | none => .ok (.node (.ifStmt [.branch expression if_actions] []))
          | some (tl, tn, k) =>
            if strHas tl "if" then do
              let item_split := splitWs tl
              let header_list := splitWs header
              let s1 ← pyGet item_split 1
              if s1 ≠ "else" then do
                let _ ← pyGet header_list 1
                .error kwCtorTypeError
              else do
                let s2 ← pyGet item_split 2
                if s2 ≠ "if" then do
                  let _ ← pyGet header_list 1
                  .error kwCtorTypeError
                else do
                  let x := pyReplace tl "\x7d else " ""
                  let newBlock := BItem.tup x tn :: block.drop (k + 2)
                  let ires ← blockRun n (.ifInit newBlock)
                  (match ires with
                    | .initRes hdr2 => do
                      let inner ← blockRun n (.ifp hdr2 newBlock)
                      (match inner with
                        | .node innerV =>
                          .ok (.node (.ifStmt [.branch expression if_actions] [innerV]))
                        | _ => .error .fuel)
                    | _ => .error .fuel)
            else do
              let ares ← blockRun n (.elseScan (block.drop (k + 2)))
              (match ares with
                | .contents actions =>
                  .ok (.node (.ifStmt [.branch expression if_actions] actions))
                | _ => .error .fuel))
      | _ => .error .fuel)
  | n + 1, .scan items =>
    (match items with
      | [] => .ok (.scanRes [] none)
      | .tup l num :: _ => .ok (.scanRes [] (some (l, num, 0)))
      | b :: rest => do
        let v ← blockRun n (.parse b)
        (match v with
          | .node vn => do
            let r ← blockRun n (.scan rest)
            (match r with
              | .scanRes vs found =>
                .ok (.scanRes (vn :: vs) (found.map (fun t => (t.1, t.2.1, t.2.2 + 1))))
              | _ => .error .fuel)
          | _ => .error .fuel))
  | n + 1, .elseScan items =>
    (match items with
      | [] => .ok (.contents [])
      | .tup _ _ :: _ => .ok (.contents [])
      | b :: rest => do
        let v ← blockRun n (.parse b)
        (match v with
          | .node vn => do
            let r ← blockRun n (.elseScan rest)
            (match r with
              | .contents vs => .ok (.contents (vn :: vs))
              | _ => .error .fuel)
          | _ => .error .fuel))
  | n + 1, .ifInit block => do
    let (header, _kw) ← childHeader block
    let _ ← blockRun n (.evalLine (block.drop 1))
    .ok (.initRes header)
  | n + 1, .evalLine items => blockRun n (.evalItems items true [.pyList []])
  | n + 1, .evalItems items created contents =>
    (match items with
      | [] => .ok (.contents contents)
      | .tup l num :: rest =>
        if pyStrip l ≠ "\x7d" then
          blockRun n (.evalItems rest true (contents ++ [.pyList [.marker l num]]))
        else blockRun n (.evalItems rest false contents)
      | .line l :: rest =>
        if created then do
          let vn ← Line.parse l
          let c2 ← appendLast contents vn
          blockRun n (.evalItems rest created c2)
        else do
          let vn ← Line.parse l
          blockRun n (.evalItems rest created (contents ++ [vn]))
      | b :: rest => do
        let v ← blockRun n (.parse b)
        (match v with
          | .node vn => do
            let c2 ← appendLast contents vn
            blockRun n (.evalItems rest created c2)
          | _ => .error .fuel))
termination_by structural fuel

/-! ### The Block Nester (process.py) -/

/-- `create_blocks` (process.py:88-118).  The Python loop scans `file_lines`
from index `line_number - 1` and the re-entrant call passes `line_index + 1`,
i.e. it rescans from the opener's own position; passing the remaining suffix
is the same scan because the visited-number check skips consumed lines.  A
line with both braces becomes a sibling tuple; a `{`-only line opens a block
(constructed, filled with the recursively nested children, then run through
`evaluate_line`); a `}`-only line is appended as `('}', number)` and ends the
scan; anything else is classified as a Line.  Every step decrements the
structural counter. -/
def create_blocks (fuel : Nat) (file_lines : List (String × Int)) (visited : List Int)
    (contents : List BItem) : Except Err (List BItem × List Int) :=
  match fuel, file_lines with
  | 0, _ => .error .fuel
  | _ + 1, [] => .ok (contents, visited)
  | n + 1, (l, num) :: rest =>
    if num ∈ visited then create_blocks n rest visited contents
    else
      let visited2 := visited ++ [num]
      if strHas l "\x7b" then
        if strHas l "\x7d" then
          create_blocks n rest visited2 (contents ++ [.tup l num])
        else do
          let (cls, header, kw) ← Block.makeOpen l num
          let (children, visited3) ← create_blocks n ((l, num) :: rest) visited2 []
          let cres ← blockRun n (.evalLine children)
          (match cres with
            | .contents bcon =>
              create_blocks n rest visited3
                (contents ++ [.blk cls (.tup l num :: children) header kw bcon])
            | _ => .error .fuel)
      else if strHas l "\x7d" then .ok (contents ++ [.tup "\x7d" num], visited2)
      else do
        let ln ← Line.make l num
        create_blocks n rest visited2 (contents ++ [.line ln])
termination_by structural fuel

/-- `process_ram` (process.py:41-85): drop blank lines and `%`-comment lines,
then nest from the start with no visited lines. -/
def process_ram (file_lines : List (String × Int)) (fuel : Nat) :
    Except Err (List BItem) := do
  let fl2 := file_lines.filter (fun p => p.1 ≠ "" && p.1.data.headD ' ' ≠ '%')
  let (cs, _) ← create_blocks fuel fl2 [] []
  .ok cs

/-- The statement loop of `main_parser` (process.py:131-132): parse each
nested top-level item in order. -/
def parseItems (fuel : Nat) (items : List BItem) : Except Err (List Node) :=
  match items with
  | [] => .ok []
  | b :: rest => do
    let v ← blockRun fuel (.parse b)
    (match v with
      | .node vn => do
        let vs ← parseItems fuel rest
        .ok (vn :: vs)
      | _ => .error .fuel)

/-- The catch-all of `main_parser` (process.py:135-138): a `RamException` is
re-raised unchanged, anything else is wrapped as the modelled
`RamGeneralException` carrying `str(e)`. -/
def mainCatch (r : Except Err (List Node)) : Except Err (List Node) :=
  match r with
  | .ok v => .ok v
  | .error e => if e.isRam then .error e else .error (.ramGeneral (render e))

/-- `main_parser` (process.py:121-138) minus the out-of-scope file reading:
nest the given lines and parse each top-level item into the module's
statement list, under the catch-all. -/
def mainParser (file_lines : List (String × Int)) (fuel : Nat) : Except Err (List Node) :=
  mainCatch (do
    let code ← process_ram file_lines fuel
    parseItems fuel code)

/-! ### Observation helpers used by theorem statements -/

/-- Number of closer markers (tuples whose stripped text is `}`) at one
nesting level of a block's element list. -/
def closerCount : List BItem → Nat
  | [] => 0
  | .tup l _ :: r => (if pyStrip l = "\x7d" then 1 else 0) + closerCount r
  | _ :: r => closerCount r

/-- Occurrences of a character in a string. -/
def chCount (s : String) (c : Char) : Nat := (s.data.filter (fun d => d = c)).length

/-- Total occurrences of a character over the text of all input lines. -/
def linesChCount (fl : List (String × Int)) (c : Char) : Nat :=
  (fl.map (fun p => chCount p.1 c)).sum

/-- Did the computation succeed? -/
def isOkB : Except Err α → Bool
  | .ok _ => true
  | .error _ => false

/-- Number of input entries whose line number is not yet consumed: the
"remaining unconsumed lines" measure of the Block Nester's recursion. -/
def uvCount (fl : List (String × Int)) (visited : List Int) : Nat :=
  (fl.filter (fun p => p.2 ∉ visited)).length

/-- A recursion allowance sufficient for `create_blocks` on the given input
(proved by `claim_C9`). -/
def cbBound (fl : List (String × Int)) (visited : List Int) : Nat :=
  (fl.length + 1) * (uvCount fl visited + 5)

/-- Total node count of a block-item tree (each raw line or tuple counts 1,
a block object 2 plus its elements); drives the recursion-allowance bounds
of the block parser. -/
def tcB : BItem → Nat
  | .tup _ _ => 1
  | .line _ => 1
  | .blk _ block _ _ _ => 2 + (block.attach.map (fun x => tcB x.1)).sum
decreasing_by
  have := List.sizeOf_lt_of_mem x.2
  simp only [BItem.blk.sizeOf_spec]
  omega

/-- Node count of a block-item list. -/
def tcS (l : List BItem) : Nat := (l.map tcB).sum

/-- A recursion allowance sufficient for each block-machinery request (proved
by `blockRun_noFuel`): linear in the node count of the request's elements. -/
def thresh : BReq → Nat
  | .parse b => 2 * tcB b + 2
  | .ifp _ block => 2 * tcS block + 4
  | .scan items => 2 * tcS items + 3
  | .elseScan items => 2 * tcS items + 3
  | .ifInit block => 2 * tcS block + 3
  | .evalLine items => 2 * tcS items + 4
  | .evalItems items _ _ => 2 * tcS items + 3

/-- Raw text of an `else if` chain-link marker line. -/
def elseIfLine (cond : String) : String := "\x7d else if " ++ cond ++ " \x7b"

/-- Block elements of an if/else-if/.../else chain after the head's body:
each link contributes its marker tuple and its body lines; the final `else`
contributes its marker, its body and the level's closer. -/
def chainItems (links : List (String × List Line)) (elseLines : List Line) : List BItem :=
  match links with
  | [] => BItem.tup "\x7d else \x7b" 0 :: (elseLines.map .line ++ [.tup "\x7d" 0])
  | (c, ls) :: rest =>
    BItem.tup (elseIfLine c) 0 :: (ls.map .line ++ chainItems rest elseLines)

/-- Full block element list of a chain with head condition `c0`. -/
def chainBlock (c0 : String) (b0 : List Line) (links : List (String × List Line))
    (elseLines : List Line) : List BItem :=
  BItem.tup ("if " ++ c0 ++ " \x7b") 0 :: (b0.map .line ++ chainItems links elseLines)

/-- Right-nested If tree of an if/else-if/.../else chain: each continuation
is the sole element of the enclosing node's else body, ending in a flat else
body. -/
def nestedIf (c0 : Node) (b0 : List Node) (links : List (Node × List Node))
    (elseB : List Node) : Node :=
  match links with
  | [] => .ifStmt [.branch c0 b0] elseB
  | (c1, b1) :: rest => .ifStmt [.branch c0 b0] [nestedIf c1 b1 rest elseB]

/-! ### Claim theorems -/

/-- Appending into the last contents sublist always succeeds when that last
element is a Python list. -/
theorem appendLast_concat (pre : List Node) (xs : List Node) (v : Node) :
    appendLast (pre ++ [.pyList xs]) v = .ok (pre ++ [.pyList (xs ++ [v])]) := by
  simp [appendLast]

/-- Parsing a Line item is `Line.parse` whenever any recursion allowance is
left. -/
theorem blockRun_parse_line (fuel : Nat) (l : Line) (h : 1 ≤ fuel) :
    blockRun fuel (.parse (.line l)) = (Line.parse l).map .node := by
  cases fuel with
  | zero => omega
  | succ n => rfl

/-- Scanning a run of successfully parsing lines followed by a tuple
collects the parsed statements and reports the tuple with its offset. -/
theorem blockRun_scan_lines (bs : List (Line × Node)) (t : String) (z : Int)
    (rest : List BItem) :
    ∀ fuel : Nat, (∀ p ∈ bs, Line.parse p.1 = .ok p.2) → bs.length + 1 ≤ fuel →
    blockRun fuel (.scan (bs.map (fun p => BItem.line p.1) ++ (BItem.tup t z :: rest))) =
      .ok (.scanRes (bs.map Prod.snd) (some (t, z, bs.length))) := by
  induction bs with
  | nil =>
    intro fuel hb hfuel
    cases fuel with
    | zero => omega
    | succ n => simp [blockRun]
  | cons p bs ih =>
    intro fuel hb hfuel
    cases fuel with
    | zero => omega
    | succ n =>
      have hp : Line.parse p.1 = .ok p.2 := hb p (by simp)
      have hrec := ih n (fun q hq => hb q (by simp [hq]))
        (by simp at hfuel ⊢; omega)
      simp only [blockRun, List.map_cons, List.cons_append]
      rw [blockRun_parse_line n p.1 (by simp at hfuel; omega), hp]
      simp [Except.bind, Bind.bind, Monad.toBind, Except.instMonad, Except.map, hrec]

/-- Collecting else-branch actions over successfully parsing lines, stopped
by a following tuple (or the end of the list). -/
theorem blockRun_elseScan_lines (bs : List (Line × Node)) (rest : List BItem)
    (hrest : rest = [] ∨ ∃ t z r2, rest = BItem.tup t z :: r2) :
    ∀ fuel : Nat, (∀ p ∈ bs, Line.parse p.1 = .ok p.2) → bs.length + 1 ≤ fuel →
    blockRun fuel (.elseScan (bs.map (fun p => BItem.line p.1) ++ rest)) =
      .ok (.contents (bs.map Prod.snd)) := by
  induction bs with
  | nil =>
    intro fuel hb hfuel
    cases fuel with
    | zero => omega
    | succ n =>
      rcases hrest with h | ⟨t, z, r2, h⟩ <;> subst h <;> simp [blockRun]
  | cons p bs ih =>
    intro fuel hb hfuel
    cases fuel with
    | zero => omega
    | succ n =>
      have hp : Line.parse p.1 = .ok p.2 := hb p (by simp)
      have hrec := ih n (fun q hq => hb q (by simp [hq]))
        (by simp at hfuel ⊢; omega)
      simp only [blockRun, List.map_cons, List.cons_append]
      rw [blockRun_parse_line n p.1 (by simp at hfuel; omega), hp]
      simp [Except.bind, Bind.bind, Monad.toBind, Except.instMonad, Except.map, hrec]

/-- Over items that are only tuples and successfully parsing lines,
`evaluate_line`\'s fold always succeeds, provided the running contents end
in a Python list whenever the created flag is set. -/
theorem blockRun_evalItems_ok (items : List BItem) :
    ∀ (created : Bool) (cs : List Node) (fuel : Nat),
    (∀ b ∈ items,
      (∃ t z, b = BItem.tup t z) ∨ ∃ l v, b = BItem.line l ∧ Line.parse l = .ok v) →
    (created = true → ∃ pre xs, cs = pre ++ [Node.pyList xs]) →
    items.length + 1 ≤ fuel →
    ∃ c2, blockRun fuel (.evalItems items created cs) = .ok (.contents c2) := by
  induction items with
  | nil =>
    intro created cs fuel hitems hcs hfuel
    cases fuel with
    | zero => omega
    | succ n => exact ⟨cs, by simp [blockRun]⟩
  | cons b items ih =>
    intro created cs fuel hitems hcs hfuel
    cases fuel with
    | zero => omega
    | succ n =>
      have hfuel2 : items.length + 1 ≤ n := by simp at hfuel; omega
      have hitems2 : ∀ x ∈ items,
          (∃ t z, x = BItem.tup t z) ∨ ∃ l v, x = BItem.line l ∧ Line.parse l = .ok v :=
        fun x hx => hitems x (by simp [hx])
      rcases hitems b (by simp) with ⟨t, z, hbt⟩ | ⟨l, v, hbl, hlv⟩
      · subst hbt
        by_cases hst : pyStrip t = "\x7d"
        · obtain ⟨c2, hc2⟩ := ih false cs n hitems2 (fun h2 => by simp at h2) hfuel2
          refine ⟨c2, ?_⟩
          simp only [blockRun]
          simp [hst, hc2]
        · obtain ⟨c2, hc2⟩ := ih true (cs ++ [.pyList [.marker t z]]) n hitems2
            (fun h2 => ⟨cs, [.marker t z], rfl⟩) hfuel2
          refine ⟨c2, ?_⟩
          simp only [blockRun]
          simp [hst, hc2]
      · subst hbl
        cases created with
        | true =>
          obtain ⟨pre, xs, hpre⟩ := hcs rfl
          subst hpre
          obtain ⟨c2, hc2⟩ := ih true (pre ++ [.pyList (xs ++ [v])]) n hitems2
            (fun h2 => ⟨pre, xs ++ [v], rfl⟩) hfuel2
          refine ⟨c2, ?_⟩
          simp only [blockRun]
          simp [hlv, Except.bind, Bind.bind, Monad.toBind, Except.instMonad,
            appendLast_concat, hc2]
        | false =>
          obtain ⟨c2, hc2⟩ := ih false (cs ++ [v]) n hitems2 (fun h2 => by simp at h2)
            hfuel2
          refine ⟨c2, ?_⟩
          simp only [blockRun]
          simp [hlv, Except.bind, Bind.bind, Monad.toBind, Except.instMonad, hc2]


/-- Every element of a chain tail is a tuple or a successfully parsing
line. -/
theorem chainItems_parse (links : List ((String × Node) × List (Line × Node)))
    (elseB : List (Line × Node)) :
    (∀ lk ∈ links, ∀ p ∈ lk.2, Line.parse p.1 = .ok p.2) →
    (∀ p ∈ elseB, Line.parse p.1 = .ok p.2) →
    ∀ b ∈ chainItems (links.map fun lk => (lk.1.1, lk.2.map Prod.fst))
        (elseB.map Prod.fst),
      (∃ t z, b = BItem.tup t z) ∨ ∃ l v, b = BItem.line l ∧ Line.parse l = .ok v := by
  induction links with
  | nil =>
    intro _ he b hbmem
    simp only [List.map_nil, chainItems, List.mem_cons, List.mem_append, List.mem_map,
      List.map_map, List.mem_singleton] at hbmem
    rcases hbmem with rfl | ⟨⟨p, hp, rfl⟩ | rfl | h0⟩
    · exact Or.inl ⟨_, _, rfl⟩
    · exact Or.inr ⟨p.1, p.2, rfl, he p hp⟩
    · exact Or.inl ⟨_, _, rfl⟩
    · cases h0
  | cons lk links ihl =>
    intro hlk he b hbmem
    simp only [List.map_cons, chainItems, List.mem_cons, List.mem_append, List.mem_map,
      List.map_map] at hbmem
    rcases hbmem with rfl | ⟨⟨p, hp, rfl⟩ | hbm⟩
    · exact Or.inl ⟨_, _, rfl⟩
    · exact Or.inr ⟨p.1, p.2, rfl, hlk lk (by simp) p hp⟩
    · exact ihl (fun lk2 h2 => hlk lk2 (by simp [h2])) he b hbm

/-- The direct `IfBlock` constructor succeeds on a chain-shaped block: the
header is the stripped opener up to its brace, and `evaluate_line` over a
tail of tuples and successfully parsing lines cannot fail. -/
theorem blockRun_ifInit_lines (x : String) (z : Int) (rest : List BItem) (hdr : String)
    (fuel : Nat)
    (hbr : upToBrace x = some hdr)
    (hne : splitWs hdr ≠ [])
    (hitems : ∀ b ∈ rest,
      (∃ t z2, b = BItem.tup t z2) ∨ ∃ l v, b = BItem.line l ∧ Line.parse l = .ok v)
    (hfuel : rest.length + 3 ≤ fuel) :
    blockRun fuel (.ifInit (BItem.tup x z :: rest)) = .ok (.initRes hdr) := by
  cases fuel with
  | zero => omega
  | succ n =>
    cases n with
    | zero => omega
    | succ m =>
      obtain ⟨c2, hc2⟩ := blockRun_evalItems_ok rest true [.pyList []] m hitems
        (fun _ => ⟨[], [], rfl⟩) (by omega)
      cases hsw : splitWs hdr with
      | nil => exact absurd hsw hne
      | cons kw ws =>
        simp only [blockRun]
        simp [childHeader, pyGet, hbr, hsw, Except.bind, Bind.bind, Monad.toBind,
          Except.instMonad, hc2]

/-- An `args` request only ever answers with a `pyList`. -/
theorem exprRun_args_pyList (fuel : Nat) (g : List TT) (v : Node)
    (h : exprRun fuel (.args g) = .ok v) : ∃ ws, v = .pyList ws := by
  cases fuel with
  | zero => simp [exprRun] at h
  | succ n =>
    cases g with
    | nil =>
      simp [exprRun] at h
      exact ⟨[], h.symm⟩
    | cons t ts =>
      simp only [exprRun] at h
      split at h
      · split at h
        · simp [Except.bind, Bind.bind, Monad.toBind, Except.instMonad, pure, Except.pure] at h
          exact ⟨[Node.emptyExpr], h.symm⟩
        · rename_i pp piece heq gg hne
          cases he : exprRun n (.one (.start 0) piece) with
          | error e =>
            rw [he] at h
            simp [Except.bind, Bind.bind, Monad.toBind, Except.instMonad] at h
          | ok w =>
            rw [he] at h
            simp [Except.bind, Bind.bind, Monad.toBind, Except.instMonad] at h
            exact ⟨[w], h.symm⟩
      · rename_i pp piece rest2 heq
        have htail : ∀ w, (do
            let vs ← exprRun n (.args rest2)
            (match vs with
              | .pyList ws => .ok (.pyList (w :: ws))
              | _ => .error .fuel) : Except Err Node) = .ok v →
            ∃ ws, v = .pyList ws := by
          intro w hw
          cases ha : exprRun n (.args rest2) with
          | error e =>
            rw [ha] at hw
            simp [Except.bind, Bind.bind, Monad.toBind, Except.instMonad] at hw
          | ok w2 =>
            rw [ha] at hw
            obtain ⟨ws, hws⟩ := exprRun_args_pyList n rest2 w2 ha
            subst hws
            simp [Except.bind, Bind.bind, Monad.toBind, Except.instMonad] at hw
            exact ⟨w :: ws, hw.symm⟩
        split at h
        · exact htail Node.emptyExpr (by
            simpa [Except.bind, Bind.bind, Monad.toBind, Except.instMonad, pure,
              Except.pure] using h)
        · rename_i gg hne
          cases he : exprRun n (.one (.start 0) piece) with
          | error e =>
            rw [he] at h
            simp [Except.bind, Bind.bind, Monad.toBind, Except.instMonad] at h
          | ok w =>
            rw [he] at h
            exact htail w (by
              simpa [Except.bind, Bind.bind, Monad.toBind, Except.instMonad] using h)

/-- Binding preserves freedom from the embedding-artifact fuel error. -/
theorem noFuel_bind {α β : Type} {x : Except Err α} {f : α → Except Err β}
    (h1 : x ≠ .error .fuel) (h2 : ∀ a, f a ≠ .error .fuel) :
    (x >>= f) ≠ .error .fuel := by
  cases x with
  | ok a => simpa [Except.bind, Bind.bind, Monad.toBind, Except.instMonad] using h2 a
  | error e =>
    intro hc
    simp [Except.bind, Bind.bind, Monad.toBind, Except.instMonad] at hc
    exact h1 (by rw [hc])

/-- The paren grouper only fails with operator errors, never with the fuel
marker. -/
theorem groupStrs_noFuel : ∀ (l : List String) (acc : List TT) (stack : List (List TT)),
    groupStrs l acc stack ≠ .error .fuel := by
  intro l
  induction l with
  | nil => intro acc stack; cases stack <;> simp [groupStrs]
  | cons t rest ih =>
    intro acc stack
    by_cases h1 : t = "("
    · simpa [groupStrs, h1] using ih [] (acc :: stack)
    · by_cases h2 : t = ")"
      · cases stack with
        | nil => simp [groupStrs, h1, h2]
        | cons top st2 => simpa [groupStrs, h1, h2] using ih (.grp acc.reverse :: top) st2
      · simpa [groupStrs, h1, h2] using ih (.tok t :: acc) stack

/-- The expression evaluator never returns the embedding-artifact fuel
error: exhausting its counter is the modelled RecursionError, and its
result-shape fallthroughs are unreachable. -/
theorem exprRun_noFuel : ∀ (fuel : Nat) (req : EReq), exprRun fuel req ≠ .error .fuel := by
  intro fuel
  induction fuel with
  | zero => intro req; simp [exprRun]
  | succ n ih =>
    intro req
    cases req with
    | one st l =>
      cases l with
      | nil => cases st <;> simp [exprRun]
      | cons t rest =>
        cases st with
        | haveVal v =>
          cases t with
          | tok s =>
            by_cases hb : isBinOpTok s
            · simpa [exprRun, hb] using ih (.one (.afterOp v s 0) rest)
            · simp [exprRun, hb]
          | grp g => simp [exprRun]
        | start k =>
          cases t with
          | tok s =>
            by_cases h1 : s = "not"
            · simpa [exprRun, h1] using ih (.one (stepNot (.start k)) rest)
            · by_cases h2 : isNumericTok s
              · simpa [exprRun, h1, h2] using
                  ih (.one (stApply (.start k) (.numLit (tokToInt s))) rest)
              · by_cases h3 : s = "true"
                · simpa [exprRun, h1, h2, h3] using
                    ih (.one (stApply (.start k) (.boolLit true)) rest)
                · by_cases h4 : s = "false"
                  · simpa [exprRun, h1, h2, h3, h4] using
                      ih (.one (stApply (.start k) (.boolLit false)) rest)
                  · by_cases h5 : isQuoted s
                    · simpa [exprRun, h1, h2, h3, h4, h5] using
                        ih (.one (stApply (.start k) (.strLit (stripQuotes s))) rest)
                    · by_cases h6 : isOpTok s || s = "(" || s = ")" || s = ","
                      · simp [exprRun, h1, h2, h3, h4, h5, h6]
                      · cases rest with
                        | nil =>
                          simpa [exprRun, h1, h2, h3, h4, h5, h6] using
                            ih (.one (stApply (.start k) (.var s)) [])
                        | cons r rest2 =>
                          cases r with
                          | tok s2 =>
                            simpa [exprRun, h1, h2, h3, h4, h5, h6] using
                              ih (.one (stApply (.start k) (.var s)) (.tok s2 :: rest2))
                          | grp g =>
                            intro hc
                            cases ha : exprRun n (.args g) with
                            | error e =>
                              simp [exprRun, h1, h2, h3, h4, h5, h6, ha, Except.bind,
                                Bind.bind, Monad.toBind, Except.instMonad] at hc
                              exact ih (.args g) (ha.trans (by rw [hc]))
                            | ok a =>
                              obtain ⟨ws, rfl⟩ := exprRun_args_pyList n g a ha
                              simp [exprRun, h1, h2, h3, h4, h5, h6, ha, Except.bind,
                                Bind.bind, Monad.toBind, Except.instMonad] at hc
                              exact ih (.one (stApply (.start k)
                                (.callE s ws)) rest2) hc
          | grp g =>
            cases g with
            | nil =>
              simpa [exprRun, Except.bind, Bind.bind, Monad.toBind, Except.instMonad,
                pure, Except.pure] using ih (.one (stApply (.start k) .emptyExpr) rest)
            | cons g0 gs =>
              simp only [exprRun]
              exact noFuel_bind (ih (.one (.start 0) (g0 :: gs)))
                (fun a => ih (.one (stApply (.start k) a) rest))
        | afterOp lft op nk =>
          cases t with
          | tok s =>
            by_cases h1 : s = "not"
            · simpa [exprRun, h1] using ih (.one (stepNot (.afterOp lft op nk)) rest)
            · by_cases h2 : isNumericTok s
              · simpa [exprRun, h1, h2] using
                  ih (.one (stApply (.afterOp lft op nk) (.numLit (tokToInt s))) rest)
              · by_cases h3 : s = "true"
                · simpa [exprRun, h1, h2, h3] using
                    ih (.one (stApply (.afterOp lft op nk) (.boolLit true)) rest)
                · by_cases h4 : s = "false"
                  · simpa [exprRun, h1, h2, h3, h4] using
                      ih (.one (stApply (.afterOp lft op nk) (.boolLit false)) rest)
                  · by_cases h5 : isQuoted s
                    · simpa [exprRun, h1, h2, h3, h4, h5] using
                        ih (.one (stApply (.afterOp lft op nk) (.strLit (stripQuotes s))) rest)
                    · by_cases h6 : isOpTok s || s = "(" || s = ")" || s = ","
                      · simp [exprRun, h1, h2, h3, h4, h5, h6]
                      · cases rest with
                        | nil =>
                          simpa [exprRun, h1, h2, h3, h4, h5, h6] using
                            ih (.one (stApply (.afterOp lft op nk) (.var s)) [])
                        | cons r rest2 =>
                          cases r with
                          | tok s2 =>
                            simpa [exprRun, h1, h2, h3, h4, h5, h6] using
                              ih (.one (stApply (.afterOp lft op nk) (.var s)) (.tok s2 :: rest2))
                          | grp g =>
                            intro hc
                            cases ha : exprRun n (.args g) with
                            | error e =>
                              simp [exprRun, h1, h2, h3, h4, h5, h6, ha, Except.bind,
                                Bind.bind, Monad.toBind, Except.instMonad] at hc
                              exact ih (.args g) (ha.trans (by rw [hc]))
                            | ok a =>
                              obtain ⟨ws, rfl⟩ := exprRun_args_pyList n g a ha
                              simp [exprRun, h1, h2, h3, h4, h5, h6, ha, Except.bind,
                                Bind.bind, Monad.toBind, Except.instMonad] at hc
                              exact ih (.one (stApply (.afterOp lft op nk)
                                (.callE s ws)) rest2) hc
          | grp g =>
            cases g with
            | nil =>
              simpa [exprRun, Except.bind, Bind.bind, Monad.toBind, Except.instMonad,
                pure, Except.pure] using ih (.one (stApply (.afterOp lft op nk) .emptyExpr) rest)
            | cons g0 gs =>
              simp only [exprRun]
              exact noFuel_bind (ih (.one (.start 0) (g0 :: gs)))
                (fun a => ih (.one (stApply (.afterOp lft op nk) a) rest))
    | args g =>
      cases g with
      | nil => simp [exprRun]
      | cons t ts =>
        simp only [exprRun]
        split
        · split
          · simp [Except.bind, Bind.bind, Monad.toBind, Except.instMonad, pure, Except.pure]
          · rename_i pp piece heq gg hne
            exact noFuel_bind (ih (.one (.start 0) piece)) (fun a => by simp)
        · rename_i pp piece rest2 heq
          have htail : ∀ w, ((do
              let vs ← exprRun n (.args rest2)
              (match vs with
                | .pyList ws => .ok (.pyList (w :: ws))
                | _ => .error .fuel) : Except Err Node)) ≠ .error .fuel := by
            intro w
            cases ha : exprRun n (.args rest2) with
            | error e =>
              intro hc
              simp [Except.bind, Bind.bind, Monad.toBind, Except.instMonad] at hc
              exact ih (.args rest2) (ha.trans (by rw [hc]))
            | ok w2 =>
              obtain ⟨ws, rfl⟩ := exprRun_args_pyList n rest2 w2 ha
              simp [Except.bind, Bind.bind, Monad.toBind, Except.instMonad]
          split
          · simpa [Except.bind, Bind.bind, Monad.toBind, Except.instMonad, pure,
              Except.pure] using htail Node.emptyExpr
          · rename_i gg hne
            exact noFuel_bind (ih (.one (.start 0) piece)) htail

/-- `parse_expression` never returns the embedding-artifact fuel error. -/
theorem parse_expression_noFuel (xs : List Elem) : parse_expression xs ≠ .error .fuel := by
  simp only [parse_expression]
  cases hg : groupStrs (elemsFlatten xs) [] [] with
  | error e =>
    intro hc
    simp [Except.bind, Bind.bind, Monad.toBind, Except.instMonad] at hc
    exact groupStrs_noFuel _ _ _ (hg.trans (by rw [hc]))
  | ok tts =>
    intro hc
    simp only [Except.bind, Bind.bind, Monad.toBind, Except.instMonad] at hc
    cases tts with
    | nil => simp [pure, Except.pure] at hc
    | cons t2 ts2 => exact exprRun_noFuel _ _ hc

/-- Python list indexing never yields the fuel marker. -/
theorem pyGet_noFuel {α : Type} (l : List α) (i : Nat) : pyGet l i ≠ .error .fuel := by
  unfold pyGet
  cases l.get? i <;> simp

/-- Python `l[-2]` never yields the fuel marker. -/
theorem pyNeg2_noFuel {α : Type} (l : List α) : pyNeg2 l ≠ .error .fuel := by
  unfold pyNeg2
  split
  · simp [synCtorTypeError, kwCtorTypeError]
  · exact pyGet_noFuel _ _

/-- `parse_variable` never yields the fuel marker. -/
theorem parse_variable_noFuel (line : String) (vtype : Elem) (rest : List Elem) :
    parse_variable line vtype rest ≠ .error .fuel := by
  unfold parse_variable
  split
  · exact noFuel_bind (parse_expression_noFuel _) (fun a => by simp)
  · simp [synCtorTypeError, kwCtorTypeError]

/-- `parse_return` never yields the fuel marker. -/
theorem parse_return_noFuel (return_list : List Elem) :
    parse_return return_list ≠ .error .fuel := by
  unfold parse_return
  split
  · simp [synCtorTypeError, kwCtorTypeError]
  · split
    · simp [synCtorTypeError, kwCtorTypeError]
    · split
      · simp [synCtorTypeError, kwCtorTypeError]
      · exact parse_expression_noFuel _

/-- `parse_display` never yields the fuel marker. -/
theorem parse_display_noFuel (line : String) (value : List Elem) :
    parse_display line value ≠ .error .fuel := by
  simp only [parse_display]
  split
  · simp [synCtorTypeError, kwCtorTypeError]
  · split
    · exact noFuel_bind (parse_expression_noFuel _) (fun a => by simp)
    · exact noFuel_bind (parse_expression_noFuel _) (fun a => by simp)

/-- The dispatch body of `Line.parse` never yields the fuel marker. -/
theorem Line_parseInner_noFuel (l : Line) : Line.parseInner l ≠ .error .fuel := by
  unfold Line.parseInner
  split
  · exact noFuel_bind (pyGet_noFuel _ _) (fun a => parse_variable_noFuel _ _ _)
  · split
    · exact parse_display_noFuel _ _
    · split
      · exact parse_return_noFuel _
      · split
        · exact parse_expression_noFuel _
        · simp [synCtorTypeError, kwCtorTypeError]

/-- The re-wrapping catch of `Line.parse` preserves freedom from the fuel
marker. -/
theorem lineCatch_noFuel (line : String) (number : Int) (r : Except Err Node)
    (h : r ≠ .error .fuel) : lineCatch line number r ≠ .error .fuel := by
  unfold lineCatch
  split
  · simp
  · split
    · simp
    · exact h

/-- `Line.parse` never yields the fuel marker. -/
theorem Line_parse_noFuel (l : Line) : Line.parse l ≠ .error .fuel :=
  lineCatch_noFuel _ _ _ (Line_parseInner_noFuel l)

/-- `get_line_as_list` never yields the fuel marker. -/
theorem get_line_as_list_noFuel (line : String) :
    get_line_as_list line ≠ .error .fuel := by
  simp only [get_line_as_list]
  split
  · simp [synCtorTypeError, kwCtorTypeError]
  · split
    · simp [synCtorTypeError, kwCtorTypeError]
    · split
      · simp [synCtorTypeError, kwCtorTypeError]
      · simp [synCtorTypeError, kwCtorTypeError]

/-- `Line` construction never yields the fuel marker. -/
theorem Line_make_noFuel (line : String) (number : Int) :
    Line.make line number ≠ .error .fuel := by
  unfold Line.make
  exact noFuel_bind (get_line_as_list_noFuel _) (fun a => by simp)

/-- The keyword dispatch of `Block.__init__` never yields the fuel marker. -/
theorem blockCls_noFuel (keyword : String) : blockCls keyword ≠ .error .fuel := by
  unfold blockCls
  split
  · simp [synCtorTypeError, kwCtorTypeError]
  · split
    · simp [synCtorTypeError, kwCtorTypeError]
    · split
      · simp [synCtorTypeError, kwCtorTypeError]
      · simp [synCtorTypeError, kwCtorTypeError]

/-- The child-header extraction never yields the fuel marker. -/
theorem childHeader_noFuel (block : List BItem) : childHeader block ≠ .error .fuel := by
  unfold childHeader
  refine noFuel_bind (pyGet_noFuel _ _) (fun b0 => ?_)
  split
  · split
    · simp
    · split
      · simp
      · simp
  · simp

/-- `Block.makeOpen` never yields the fuel marker. -/
theorem Block_makeOpen_noFuel (l : String) (n : Int) :
    Block.makeOpen l n ≠ .error .fuel := by
  unfold Block.makeOpen
  refine noFuel_bind (pyGet_noFuel _ _) (fun kw0 => ?_)
  refine noFuel_bind (blockCls_noFuel _) (fun cls => ?_)
  exact noFuel_bind (childHeader_noFuel _) (fun pr => by simp)

/-- `appendLast` never yields the fuel marker. -/
theorem appendLast_noFuel (contents : List Node) (v : Node) :
    appendLast contents v ≠ .error .fuel := by
  unfold appendLast
  split
  · simp [synCtorTypeError, kwCtorTypeError]
  · simp [synCtorTypeError, kwCtorTypeError]
  · simp [synCtorTypeError, kwCtorTypeError]

/-- `LoopBlock.parse` never yields the fuel marker. -/
theorem LoopBlock_parse_noFuel (header : String) (contents : List Node) :
    LoopBlock.parse header contents ≠ .error .fuel := by
  simp only [LoopBlock.parse]
  refine noFuel_bind (pyGet_noFuel _ _) (fun lv => ?_)
  refine noFuel_bind (pyGet_noFuel _ _) (fun e0 => ?_)
  refine noFuel_bind (pyGet_noFuel _ _) (fun e1 => ?_)
  refine noFuel_bind (pyGet_noFuel _ _) (fun w1 => ?_)
  split
  · simp [synCtorTypeError, kwCtorTypeError]
  · refine noFuel_bind (pyGet_noFuel _ _) (fun w3 => ?_)
    split
    · simp [synCtorTypeError, kwCtorTypeError]
    · refine noFuel_bind (pyGet_noFuel _ _) (fun vn => ?_)
      refine noFuel_bind (parse_expression_noFuel _) (fun st => ?_)
      exact noFuel_bind (parse_expression_noFuel _) (fun sp => by simp)

/-- `FunctionBlock.parse` never yields the fuel marker. -/
theorem FunctionBlock_parse_noFuel (header : String) (block : List BItem)
    (contents : List Node) : FunctionBlock.parse header block contents ≠ .error .fuel := by
  simp only [FunctionBlock.parse]
  split
  · simp [synCtorTypeError, kwCtorTypeError]
  · refine noFuel_bind (pyGet_noFuel _ _) (fun w1 => ?_)
    split
    · simp [synCtorTypeError, kwCtorTypeError]
    · refine noFuel_bind (pyGet_noFuel _ _) (fun w3 => ?_)
      split
      · simp [synCtorTypeError, kwCtorTypeError]
      · refine noFuel_bind (pyGet_noFuel _ _) (fun p4 => ?_)
        refine noFuel_bind (pyGet_noFuel _ _) (fun fn => ?_)
        refine noFuel_bind (pyNeg2_noFuel _) (fun last2 => ?_)
        split
        · refine noFuel_bind (parse_return_noFuel _) (fun re => ?_)
          refine noFuel_bind (pyGet_noFuel _ _) (fun c0 => ?_)
          split
          · split
            · simp
            · simp
          · simp
        · refine noFuel_bind (pyGet_noFuel _ _) (fun c0 => ?_)
          split
          · simp
          · simp

/-- The condition extraction of `IfBlock.parse` never yields the fuel
marker. -/
theorem ifHeaderExpr_noFuel (header : String) : ifHeaderExpr header ≠ .error .fuel := by
  simp only [ifHeaderExpr]
  exact parse_expression_noFuel _

/-- Every block item counts at least one node. -/
theorem tcB_pos (b : BItem) : 1 ≤ tcB b := by
  cases b <;> simp [tcB] <;> omega

/-- The node count of a block object is two plus that of its elements. -/
theorem tcB_blk (cls : String) (block : List BItem) (hd kw : String) (cn : List Node) :
    tcB (.blk cls block hd kw cn) = 2 + tcS block := by
  simp only [tcB, tcS]
  rw [List.attach_map_coe]

/-- Node count of a cons. -/
theorem tcS_cons (b : BItem) (l : List BItem) : tcS (b :: l) = tcB b + tcS l := by
  simp [tcS]

/-- Node count of an append. -/
theorem tcS_append (a b : List BItem) : tcS (a ++ b) = tcS a + tcS b := by
  simp [tcS]

/-- Dropping elements cannot raise the node count. -/
theorem tcS_drop_le : ∀ (l : List BItem) (k : Nat), tcS (l.drop k) ≤ tcS l := by
  intro l
  induction l with
  | nil => intro k; simp
  | cons b bs ih =>
    intro k
    cases k with
    | zero => exact Nat.le_refl _
    | succ k2 =>
      have h1 := ih k2
      have h2 := tcB_pos b
      simp only [List.drop_succ_cons, tcS_cons]
      omega

/-- Dropping `k` in-range elements lowers the node count by at least `k`. -/
theorem tcS_drop_add : ∀ (l : List BItem) (k : Nat), k ≤ l.length →
    tcS (l.drop k) + k ≤ tcS l := by
  intro l
  induction l with
  | nil => intro k hk; simp at hk; simp [hk]
  | cons b bs ih =>
    intro k hk
    cases k with
    | zero => simp
    | succ k2 =>
      have h1 := ih k2 (by simpa using hk)
      have h2 := tcB_pos b
      simp only [List.drop_succ_cons, tcS_cons]
      omega

/-- Unconsumed-entry count of a cons. -/
theorem uv_cons (l : String) (num : Int) (rest : List (String × Int)) (vis : List Int) :
    uvCount ((l, num) :: rest) vis =
      (if num ∈ vis then 0 else 1) + uvCount rest vis := by
  by_cases h : num ∈ vis <;> simp [uvCount, List.filter_cons, h] <;> omega

/-- The unconsumed-entry count is at most the number of entries. -/
theorem uv_le_length (fl : List (String × Int)) (vis : List Int) :
    uvCount fl vis ≤ fl.length :=
  List.length_filter_le _ _

/-- Growing the visited list cannot raise the unconsumed-entry count. -/
theorem uv_append (fl : List (String × Int)) (vis ext : List Int) :
    uvCount fl (vis ++ ext) ≤ uvCount fl vis := by
  induction fl with
  | nil => simp [uvCount]
  | cons p rest ih =>
    rcases p with ⟨l, num⟩
    rw [uv_cons, uv_cons]
    by_cases h1 : num ∈ vis
    · simp only [h1, if_true, List.mem_append.mpr (Or.inl h1)]
      omega
    · by_cases h2 : num ∈ vis ++ ext
      · simp only [h1, h2, if_true, if_false]
        omega
      · simp only [h1, h2, if_false]
        omega

/-- Allowance bookkeeping: the recursion allowance of a shorter scan at the
same unconsumed count. -/
theorem cb_skip (R n U : Nat) (hF : (R + 2) * (U + 5) ≤ n + 1) :
    (R + 1) * (U + 5) ≤ n := by
  have h2 : (R + 1) * (U + 5) + U + 5 = (R + 2) * (U + 5) := by ring
  linarith

/-- Allowance bookkeeping: a shorter scan after consuming an entry. -/
theorem cb_step (R n X U : Nat) (hX : X + 1 ≤ U) (hF : (R + 2) * (U + 5) ≤ n + 1) :
    (R + 1) * (X + 5) ≤ n := by
  have h1 : (R + 1) * (X + 5) ≤ (R + 1) * (U + 4) :=
    Nat.mul_le_mul (Nat.le_refl _) (by omega)
  have h2 : (R + 1) * (U + 4) + R + U + 6 = (R + 2) * (U + 5) := by ring
  linarith

/-- Allowance bookkeeping: the re-entrant call on the same lines after
consuming the opener. -/
theorem cb_child (R n X U : Nat) (hX : X + 1 ≤ U) (hF : (R + 2) * (U + 5) ≤ n + 1) :
    (R + 2) * (X + 5) ≤ n := by
  have h1 : (R + 2) * (X + 5) + (R + 2) = (R + 2) * (X + 6) := by ring
  have h2 : (R + 2) * (X + 6) ≤ (R + 2) * (U + 5) :=
    Nat.mul_le_mul (Nat.le_refl _) (by omega)
  linarith

/-- Allowance bookkeeping: the `evaluate_line` run over the nested children
fits in the remaining allowance. -/
theorem cb_eval (R n U extLen tc : Nat) (htc : tc ≤ 3 * extLen) (hext : extLen + 1 ≤ U)
    (hUL : U ≤ R + 1) (hF : (R + 2) * (U + 5) ≤ n + 1) : 2 * tc + 4 ≤ n := by
  have h1 : (U + 1) * (U + 5) ≤ (R + 2) * (U + 5) :=
    Nat.mul_le_mul (by omega) (Nat.le_refl _)
  have h2 : (U + 1) * (U + 5) = U * U + 6 * U + 5 := by ring
  have h3 : 0 ≤ U * U := Nat.zero_le _
  linarith

/-- A successful `ifp` request answers with a parsed node. -/
theorem blockRun_ifp_node : ∀ (fuel : Nat) (header : String) (block : List BItem) (v : BRes),
    blockRun fuel (.ifp header block) = .ok v → ∃ w, v = .node w := by
  intro fuel header block v h
  cases fuel with
  | zero => simp [blockRun] at h
  | succ n =>
    simp only [blockRun] at h
    cases he0 : ifHeaderExpr header with
    | error e =>
      rw [he0] at h
      simp [Except.bind, Bind.bind, Monad.toBind, Except.instMonad] at h
    | ok e0 =>
      rw [he0] at h
      simp only [Except.bind, Bind.bind, Monad.toBind, Except.instMonad] at h
      cases hs : blockRun n (.scan (block.drop 1)) with
      | error e => rw [hs] at h; simp at h
      | ok sres =>
        rw [hs] at h
        simp only [] at h
        cases sres with
        | node w => simp at h
        | contents c => simp at h
        | initRes hd => simp at h
        | scanRes acts found =>
          cases found with
          | none =>
            simp only [] at h
            exact ⟨_, (Except.ok.inj h).symm⟩
          | some t =>
            rcases t with ⟨tl, tn, k⟩
            simp only [] at h
            by_cases hif : strHas tl "if"
            · simp only [hif, if_true] at h
              cases hg1 : pyGet (splitWs tl) 1 with
              | error e => rw [hg1] at h; simp at h
              | ok s1 =>
                rw [hg1] at h
                simp only [Except.bind, Bind.bind, Monad.toBind, Except.instMonad] at h
                by_cases hse : s1 = "else"
                · simp only [hse, ne_eq, not_true_eq_false, if_false] at h
                  cases hg2 : pyGet (splitWs tl) 2 with
                  | error e => rw [hg2] at h; simp at h
                  | ok s2 =>
                    rw [hg2] at h
                    simp only [Except.bind, Bind.bind, Monad.toBind, Except.instMonad] at h
                    by_cases hs2 : s2 = "if"
                    · simp only [hs2, ne_eq, not_true_eq_false, if_false] at h
                      cases hi : blockRun n (.ifInit (BItem.tup (pyReplace tl "\x7d else " "") tn :: block.drop (k + 2))) with
                      | error e => rw [hi] at h; simp at h
                      | ok ires =>
                        rw [hi] at h
                        simp only [Except.bind, Bind.bind, Monad.toBind, Except.instMonad] at h
                        cases ires with
                        | initRes hd2 =>
                          simp only [] at h
                          cases hj : blockRun n (.ifp hd2 (BItem.tup (pyReplace tl "\x7d else " "") tn :: block.drop (k + 2))) with
                          | error e => rw [hj] at h; simp at h
                          | ok inner =>
                            rw [hj] at h
                            simp only [Except.bind, Bind.bind, Monad.toBind, Except.instMonad] at h
                            cases inner with
                            | node w =>
                              simp only [] at h
                              exact ⟨_, (Except.ok.inj h).symm⟩
                            | contents c => simp at h
                            | initRes hd3 => simp at h
                            | scanRes a2 f2 => simp at h
                        | node w => simp at h
                        | contents c => simp at h
                        | scanRes a2 f2 => simp at h
                    · simp only [hs2, ne_eq, if_true, if_pos] at h
                      cases hg3 : pyGet (splitWs header) 1 with
                      | error e => rw [hg3] at h; simp at h
                      | ok s3 => rw [hg3] at h; simp at h
                · simp only [hse, ne_eq, if_true, if_pos] at h
                  cases hg3 : pyGet (splitWs header) 1 with
                  | error e => rw [hg3] at h; simp at h
                  | ok s3 => rw [hg3] at h; simp at h
            · simp only [hif, if_false] at h
              cases ha : blockRun n (.elseScan (block.drop (k + 2))) with
              | error e => rw [ha] at h; simp at h
              | ok ares =>
                rw [ha] at h
                simp only [Except.bind, Bind.bind, Monad.toBind, Except.instMonad] at h
                cases ares with
                | contents acts2 =>
                  simp only [] at h
                  exact ⟨_, (Except.ok.inj h).symm⟩
                | node w => simp at h
                | initRes hd2 => simp at h
                | scanRes a2 f2 => simp at h

/-- A successful `parse` request answers with a parsed node. -/
theorem blockRun_parse_node : ∀ (fuel : Nat) (b : BItem) (v : BRes),
    blockRun fuel (.parse b) = .ok v → ∃ w, v = .node w := by
  intro fuel b v h
  cases fuel with
  | zero => simp [blockRun] at h
  | succ n =>
    simp only [blockRun] at h
    cases b with
    | line l =>
      try simp only [] at h
      cases hp : Line.parse l with
      | error e => rw [hp] at h; simp [Except.map] at h
      | ok w =>
        rw [hp] at h
        simp only [Except.map] at h
        exact ⟨_, (Except.ok.inj h).symm⟩
    | tup l num => simp at h
    | blk cls block hd kw cn =>
      try simp only [] at h
      by_cases hc1 : cls = "loop"
      · simp only [hc1, if_true, if_pos] at h
        cases hp : LoopBlock.parse hd cn with
        | error e => rw [hp] at h; simp [Except.map] at h
        | ok w =>
          rw [hp] at h
          simp only [Except.map] at h
          exact ⟨_, (Except.ok.inj h).symm⟩
      · simp only [hc1, if_false] at h
        by_cases hc2 : cls = "function"
        · simp only [hc2, if_true, if_pos] at h
          cases hp : FunctionBlock.parse hd block cn with
          | error e => rw [hp] at h; simp [Except.map] at h
          | ok w =>
            rw [hp] at h
            simp only [Except.map] at h
            exact ⟨_, (Except.ok.inj h).symm⟩
        · simp only [hc2, if_false] at h
          by_cases hc3 : cls = "if"
          · simp only [hc3, if_true, if_pos] at h
            exact blockRun_ifp_node n hd block v h
          · simp only [hc3, if_false] at h
            simp at h

/-- A successful `scan` request answers with actions and an optional found
tuple. -/
theorem blockRun_scan_shape : ∀ (fuel : Nat) (items : List BItem) (v : BRes),
    blockRun fuel (.scan items) = .ok v → ∃ a f2, v = .scanRes a f2 := by
  intro fuel items v h
  cases fuel with
  | zero => simp [blockRun] at h
  | succ n =>
    simp only [blockRun] at h
    cases items with
    | nil => exact ⟨[], none, (Except.ok.inj h).symm⟩
    | cons b rest =>
      have hgen : ∀ (hb : (do
          let v2 ← blockRun n (.parse b)
          (match v2 with
            | .node vn => do
              let r ← blockRun n (.scan rest)
              (match r with
                | .scanRes vs found =>
                  .ok (.scanRes (vn :: vs) (found.map (fun t => (t.1, t.2.1, t.2.2 + 1))))
                | _ => .error .fuel)
            | _ => .error .fuel) : Except Err BRes) = .ok v), ∃ a f2, v = .scanRes a f2 := by
        intro hb
        cases hp : blockRun n (.parse b) with
        | error e => rw [hp] at hb; simp [Except.bind, Bind.bind, Monad.toBind, Except.instMonad] at hb
        | ok pv =>
          rw [hp] at hb
          simp only [Except.bind, Bind.bind, Monad.toBind, Except.instMonad] at hb
          cases pv with
          | node vn =>
            try simp only [] at hb
            cases hr : blockRun n (.scan rest) with
            | error e => rw [hr] at hb; simp [Except.bind, Bind.bind, Monad.toBind, Except.instMonad] at hb
            | ok rres =>
              rw [hr] at hb
              simp only [Except.bind, Bind.bind, Monad.toBind, Except.instMonad] at hb
              cases rres with
              | scanRes vs found =>
                try simp only [] at hb
                exact ⟨_, _, (Except.ok.inj hb).symm⟩
              | node w => simp at hb
              | contents c => simp at hb
              | initRes hd => simp at hb
          | contents c => simp at hb
          | initRes hd => simp at hb
          | scanRes a2 f2 => simp at hb
      cases b with
      | tup l num => exact ⟨[], some (l, num, 0), (Except.ok.inj h).symm⟩
      | line l => exact hgen h
      | blk cls block hd kw cn => exact hgen h

/-- A successful `elseScan` request answers with collected contents. -/
theorem blockRun_elseScan_contents : ∀ (fuel : Nat) (items : List BItem) (v : BRes),
    blockRun fuel (.elseScan items) = .ok v → ∃ c, v = .contents c := by
  intro fuel items v h
  cases fuel with
  | zero => simp [blockRun] at h
  | succ n =>
    simp only [blockRun] at h
    cases items with
    | nil => exact ⟨[], (Except.ok.inj h).symm⟩
    | cons b rest =>
      have hgen : ∀ (hb : (do
          let v2 ← blockRun n (.parse b)
          (match v2 with
            | .node vn => do
              let r ← blockRun n (.elseScan rest)
              (match r with
                | .contents vs => .ok (.contents (vn :: vs))
                | _ => .error .fuel)
            | _ => .error .fuel) : Except Err BRes) = .ok v), ∃ c, v = .contents c := by
        intro hb
        cases hp : blockRun n (.parse b) with
        | error e => rw [hp] at hb; simp [Except.bind, Bind.bind, Monad.toBind, Except.instMonad] at hb
        | ok pv =>
          rw [hp] at hb
          simp only [Except.bind, Bind.bind, Monad.toBind, Except.instMonad] at hb
          cases pv with
          | node vn =>
            try simp only [] at hb
            cases hr : blockRun n (.elseScan rest) with
            | error e => rw [hr] at hb; simp [Except.bind, Bind.bind, Monad.toBind, Except.instMonad] at hb
            | ok rres =>
              rw [hr] at hb
              simp only [Except.bind, Bind.bind, Monad.toBind, Except.instMonad] at hb
              cases rres with
              | contents vs =>
                try simp only [] at hb
                exact ⟨_, (Except.ok.inj hb).symm⟩
              | node w => simp at hb
              | scanRes a2 f2 => simp at hb
              | initRes hd => simp at hb
          | contents c => simp at hb
          | initRes hd => simp at hb
          | scanRes a2 f2 => simp at hb
      cases b with
      | tup l num => exact ⟨[], (Except.ok.inj h).symm⟩
      | line l => exact hgen h
      | blk cls block hd kw cn => exact hgen h

/-- A successful `ifInit` request answers with the extracted header. -/
theorem blockRun_ifInit_shape : ∀ (fuel : Nat) (block : List BItem) (v : BRes),
    blockRun fuel (.ifInit block) = .ok v → ∃ hd, v = .initRes hd := by
  intro fuel block v h
  cases fuel with
  | zero => simp [blockRun] at h
  | succ n =>
    simp only [blockRun] at h
    cases hch : childHeader block with
    | error e =>
      rw [hch] at h
      simp [Except.bind, Bind.bind, Monad.toBind, Except.instMonad] at h
    | ok pr =>
      rcases pr with ⟨hd, kw⟩
      rw [hch] at h
      simp only [Except.bind, Bind.bind, Monad.toBind, Except.instMonad] at h
      cases hev : blockRun n (.evalLine (block.drop 1)) with
      | error e => rw [hev] at h; simp [Except.bind, Bind.bind, Monad.toBind, Except.instMonad] at h
      | ok w =>
        rw [hev] at h
        simp only [Except.bind, Bind.bind, Monad.toBind, Except.instMonad] at h
        exact ⟨hd, (Except.ok.inj h).symm⟩

/-- A successful `evalItems` request answers with collected contents. -/
theorem blockRun_evalItems_contents : ∀ (fuel : Nat) (items : List BItem) (created : Bool)
    (cs : List Node) (v : BRes), blockRun fuel (.evalItems items created cs) = .ok v →
    ∃ c2, v = .contents c2 := by
  intro fuel
  induction fuel with
  | zero => intro items created cs v h; simp [blockRun] at h
  | succ n ih =>
    intro items created cs v h
    cases items with
    | nil =>
      simp only [blockRun] at h
      exact ⟨cs, (Except.ok.inj h).symm⟩
    | cons b rest =>
      cases b with
      | tup l num =>
        simp only [blockRun] at h
        by_cases hl : pyStrip l = "\x7d"
        · simp only [hl, ne_eq, not_true_eq_false, if_false] at h
          exact ih _ _ _ _ h
        · simp only [ne_eq, hl, not_false_eq_true, if_true, if_pos] at h
          exact ih _ _ _ _ h
      | line l =>
        simp only [blockRun] at h
        cases created with
        | true =>
          simp only [if_true] at h
          cases hp : Line.parse l with
          | error e => rw [hp] at h; simp [Except.bind, Bind.bind, Monad.toBind, Except.instMonad] at h
          | ok vn =>
            rw [hp] at h
            simp only [Except.bind, Bind.bind, Monad.toBind, Except.instMonad] at h
            cases happ : appendLast cs vn with
            | error e => rw [happ] at h; simp [Except.bind, Bind.bind, Monad.toBind, Except.instMonad] at h
            | ok c3 =>
              rw [happ] at h
              simp only [Except.bind, Bind.bind, Monad.toBind, Except.instMonad] at h
              exact ih _ _ _ _ h
        | false =>
          simp only [Bool.false_eq_true, if_false] at h
          cases hp : Line.parse l with
          | error e => rw [hp] at h; simp [Except.bind, Bind.bind, Monad.toBind, Except.instMonad] at h
          | ok vn =>
            rw [hp] at h
            simp only [Except.bind, Bind.bind, Monad.toBind, Except.instMonad] at h
            exact ih _ _ _ _ h
      | blk cls block hd kw cn =>
        simp only [blockRun] at h
        cases hp : blockRun n (.parse (.blk cls block hd kw cn)) with
        | error e => rw [hp] at h; simp [Except.bind, Bind.bind, Monad.toBind, Except.instMonad] at h
        | ok pv =>
          rw [hp] at h
          simp only [Except.bind, Bind.bind, Monad.toBind, Except.instMonad] at h
          cases pv with
          | node vn =>
            try simp only [] at h
            cases happ : appendLast cs vn with
            | error e => rw [happ] at h; simp [Except.bind, Bind.bind, Monad.toBind, Except.instMonad] at h
            | ok c3 =>
              rw [happ] at h
              simp only [Except.bind, Bind.bind, Monad.toBind, Except.instMonad] at h
              exact ih _ _ _ _ h
          | contents c => simp at h
          | initRes hd2 => simp at h
          | scanRes a2 f2 => simp at h

/-- A successful `evalLine` request answers with collected contents. -/
theorem blockRun_evalLine_contents (fuel : Nat) (items : List BItem) (v : BRes)
    (h : blockRun fuel (.evalLine items) = .ok v) : ∃ c2, v = .contents c2 := by
  cases fuel with
  | zero => simp [blockRun] at h
  | succ n =>
    simp only [blockRun] at h
    exact blockRun_evalItems_contents n _ _ _ _ h

/-- The found index a `scan` reports is the position of a tuple inside the
scanned items, so at most their count minus one. -/
theorem blockRun_scan_found : ∀ (fuel : Nat) (items : List BItem) (acts : List Node)
    (tl : String) (tn : Int) (k : Nat),
    blockRun fuel (.scan items) = .ok (.scanRes acts (some (tl, tn, k))) →
    k + 1 ≤ items.length := by
  intro fuel
  induction fuel with
  | zero => intro items acts tl tn k h; simp [blockRun] at h
  | succ n ih =>
    intro items acts tl tn k h
    cases items with
    | nil => simp [blockRun] at h
    | cons b rest =>
      have hgen : ∀ (hb : (do
          let v2 ← blockRun n (.parse b)
          (match v2 with
            | .node vn => do
              let r ← blockRun n (.scan rest)
              (match r with
                | .scanRes vs found =>
                  .ok (.scanRes (vn :: vs) (found.map (fun t => (t.1, t.2.1, t.2.2 + 1))))
                | _ => .error .fuel)
            | _ => .error .fuel) : Except Err BRes) =
            .ok (.scanRes acts (some (tl, tn, k)))), k + 1 ≤ (b :: rest).length := by
        intro hb
        cases hp : blockRun n (.parse b) with
        | error e => rw [hp] at hb; simp [Except.bind, Bind.bind, Monad.toBind, Except.instMonad] at hb
        | ok pv =>
          rw [hp] at hb
          simp only [Except.bind, Bind.bind, Monad.toBind, Except.instMonad] at hb
          cases pv with
          | node vn =>
            try simp only [] at hb
            cases hr : blockRun n (.scan rest) with
            | error e => rw [hr] at hb; simp [Except.bind, Bind.bind, Monad.toBind, Except.instMonad] at hb
            | ok rres =>
              rw [hr] at hb
              simp only [Except.bind, Bind.bind, Monad.toBind, Except.instMonad] at hb
              cases rres with
              | scanRes vs found =>
                try simp only [] at hb
                have hinj := Except.ok.inj hb
                cases found with
                | none => simp at hinj
                | some t0 =>
                  rcases t0 with ⟨tl0, tn0, k0⟩
                  simp only [Option.map] at hinj
                  have hk : k0 + 1 = k := congrArg (fun r =>
                    match r with
                    | BRes.scanRes _ (some (_, _, kk)) => kk
                    | _ => 0) hinj
                  have hr2 : blockRun n (.scan rest) =
                      .ok (.scanRes vs (some (tl0, tn0, k0))) := hr
                  have := ih rest vs tl0 tn0 k0 hr2
                  simp only [List.length_cons]
                  omega
              | node w => simp at hb
              | contents c => simp at hb
              | initRes hd => simp at hb
          | contents c => simp at hb
          | initRes hd => simp at hb
          | scanRes a2 f2 => simp at hb
      cases b with
      | tup l num =>
        simp only [blockRun] at h
        have hinj := Except.ok.inj h
        have hk : (0 : Nat) = k := congrArg (fun r =>
          match r with
          | BRes.scanRes _ (some (_, _, kk)) => kk
          | _ => 0) hinj
        simp only [List.length_cons]
        omega
      | line l =>
        simp only [blockRun] at h
        exact hgen h
      | blk cls block hd kw cn =>
        simp only [blockRun] at h
        exact hgen h

/-- The block machinery never exhausts its recursion allowance when seeded
with at least the `thresh` of the request: the recursion depth of `Block`
parsing is bounded by the node count of the block elements. -/
theorem blockRun_noFuel : ∀ (fuel : Nat) (req : BReq), thresh req ≤ fuel →
    blockRun fuel req ≠ .error .fuel := by
  intro fuel
  induction fuel with
  | zero =>
    intro req hth
    exfalso
    cases req <;> simp [thresh] at hth
  | succ n ih =>
    intro req hth
    cases req with
    | parse b =>
      cases b with
      | line l =>
        simp only [blockRun]
        try simp only []
        intro hc
        cases hp : Line.parse l with
        | error e =>
          rw [hp] at hc
          simp [Except.map] at hc
          exact Line_parse_noFuel l (by rw [hp, hc])
        | ok w =>
          rw [hp] at hc
          simp [Except.map] at hc
      | tup l num => simp [blockRun]
      | blk cls block hd kw cn =>
        have hth2 : 2 * (2 + tcS block) + 2 ≤ n + 1 := by
          simpa [thresh, tcB_blk] using hth
        simp only [blockRun]
        try simp only []
        by_cases hc1 : cls = "loop"
        · simp only [hc1, if_true, if_pos]
          intro hc
          cases hp : LoopBlock.parse hd cn with
          | error e =>
            rw [hp] at hc
            simp [Except.map] at hc
            exact LoopBlock_parse_noFuel hd cn (by rw [hp, hc])
          | ok w =>
            rw [hp] at hc
            simp [Except.map] at hc
        · simp only [hc1, if_false]
          by_cases hc2 : cls = "function"
          · simp only [hc2, if_true, if_pos]
            intro hc
            cases hp : FunctionBlock.parse hd block cn with
            | error e =>
              rw [hp] at hc
              simp [Except.map] at hc
              exact FunctionBlock_parse_noFuel hd block cn (by rw [hp, hc])
            | ok w =>
              rw [hp] at hc
              simp [Except.map] at hc
          · simp only [hc2, if_false]
            by_cases hc3 : cls = "if"
            · simp only [hc3, if_true, if_pos]
              exact ih (.ifp hd block) (by simp only [thresh]; omega)
            · simp only [hc3, if_false]
              simp
    | ifp header block =>
      have hth2 : 2 * tcS block + 4 ≤ n + 1 := by simpa [thresh] using hth
      simp only [blockRun]
      intro hc
      cases he0 : ifHeaderExpr header with
      | error e =>
        rw [he0] at hc
        simp [Except.bind, Bind.bind, Monad.toBind, Except.instMonad] at hc
        exact ifHeaderExpr_noFuel header (by rw [he0, hc])
      | ok e0 =>
        rw [he0] at hc
        simp only [Except.bind, Bind.bind, Monad.toBind, Except.instMonad] at hc
        cases hs : blockRun n (.scan (block.drop 1)) with
        | error e =>
          rw [hs] at hc
          simp [Except.bind, Bind.bind, Monad.toBind, Except.instMonad] at hc
          have hd1 := tcS_drop_le block 1
          exact ih (.scan (block.drop 1)) (by simp only [thresh]; omega) (by rw [hs, hc])
        | ok sres =>
          rw [hs] at hc
          simp only [Except.bind, Bind.bind, Monad.toBind, Except.instMonad] at hc
          obtain ⟨acts, found, rfl⟩ := blockRun_scan_shape n _ _ hs
          try simp only [] at hc
          cases found with
          | none => simp at hc
          | some t =>
            rcases t with ⟨tl, tn, k⟩
            try simp only [] at hc
            have hkb : k + 1 ≤ (block.drop 1).length :=
              blockRun_scan_found n _ _ _ _ _ hs
            have hlen : k + 2 ≤ block.length := by
              cases block with
              | nil => simp at hkb
              | cons b0 bs =>
                simp only [List.drop_succ_cons, List.drop_zero] at hkb
                simp only [List.length_cons]
                omega
            have hdropS : tcS (block.drop (k + 2)) + (k + 2) ≤ tcS block :=
              tcS_drop_add block (k + 2) hlen
            have htup : tcB (BItem.tup (pyReplace tl "\x7d else " "") tn) = 1 := by
              simp [tcB]
            by_cases hif : strHas tl "if"
            · simp only [hif, if_true] at hc
              cases hg1 : pyGet (splitWs tl) 1 with
              | error e =>
                rw [hg1] at hc
                simp [Except.bind, Bind.bind, Monad.toBind, Except.instMonad] at hc
                exact pyGet_noFuel _ _ (by rw [hg1, hc])
              | ok s1 =>
                rw [hg1] at hc
                simp only [Except.bind, Bind.bind, Monad.toBind, Except.instMonad] at hc
                by_cases hse : s1 = "else"
                · simp only [hse, ne_eq, not_true_eq_false, if_false] at hc
                  cases hg2 : pyGet (splitWs tl) 2 with
                  | error e =>
                    rw [hg2] at hc
                    simp [Except.bind, Bind.bind, Monad.toBind, Except.instMonad] at hc
                    exact pyGet_noFuel _ _ (by rw [hg2, hc])
                  | ok s2 =>
                    rw [hg2] at hc
                    simp only [Except.bind, Bind.bind, Monad.toBind, Except.instMonad] at hc
                    by_cases hs2 : s2 = "if"
                    · simp only [hs2, ne_eq, not_true_eq_false, if_false] at hc
                      cases hi : blockRun n (.ifInit (BItem.tup
                          (pyReplace tl "\x7d else " "") tn :: block.drop (k + 2))) with
                      | error e =>
                        rw [hi] at hc
                        simp [Except.bind, Bind.bind, Monad.toBind, Except.instMonad] at hc
                        exact ih (.ifInit (BItem.tup (pyReplace tl "\x7d else " "") tn ::
                            block.drop (k + 2)))
                          (by simp only [thresh, tcS_cons]; omega) (by rw [hi, hc])
                      | ok ires =>
                        rw [hi] at hc
                        simp only [Except.bind, Bind.bind, Monad.toBind,
                          Except.instMonad] at hc
                        obtain ⟨hd2, rfl⟩ := blockRun_ifInit_shape n _ _ hi
                        try simp only [] at hc
                        cases hj : blockRun n (.ifp hd2 (BItem.tup
                            (pyReplace tl "\x7d else " "") tn :: block.drop (k + 2))) with
                        | error e =>
                          rw [hj] at hc
                          simp [Except.bind, Bind.bind, Monad.toBind,
                            Except.instMonad] at hc
                          exact ih (.ifp hd2 (BItem.tup (pyReplace tl "\x7d else " "") tn ::
                            block.drop (k + 2)))
                            (by simp only [thresh, tcS_cons]; omega)
                            (by rw [hj, hc])
                        | ok inner =>
                          rw [hj] at hc
                          simp only [Except.bind, Bind.bind, Monad.toBind,
                            Except.instMonad] at hc
                          obtain ⟨w, rfl⟩ := blockRun_ifp_node n _ _ _ hj
                          simp at hc
                    · simp only [hs2, ne_eq, not_false_eq_true, if_true, if_pos] at hc
                      cases hg3 : pyGet (splitWs header) 1 with
                      | error e =>
                        rw [hg3] at hc
                        simp [Except.bind, Bind.bind, Monad.toBind, Except.instMonad] at hc
                        exact pyGet_noFuel _ _ (by rw [hg3, hc])
                      | ok s3 =>
                        rw [hg3] at hc
                        simp [Except.bind, Bind.bind, Monad.toBind, Except.instMonad,
                          kwCtorTypeError] at hc
                · simp only [hse, ne_eq, not_false_eq_true, if_true, if_pos] at hc
                  cases hg3 : pyGet (splitWs header) 1 with
                  | error e =>
                    rw [hg3] at hc
                    simp [Except.bind, Bind.bind, Monad.toBind, Except.instMonad] at hc
                    exact pyGet_noFuel _ _ (by rw [hg3, hc])
                  | ok s3 =>
                    rw [hg3] at hc
                    simp [Except.bind, Bind.bind, Monad.toBind, Except.instMonad,
                      kwCtorTypeError] at hc
            · simp only [hif, if_false] at hc
              cases ha : blockRun n (.elseScan (block.drop (k + 2))) with
              | error e =>
                rw [ha] at hc
                simp [Except.bind, Bind.bind, Monad.toBind, Except.instMonad] at hc
                exact ih (.elseScan (block.drop (k + 2)))
                  (by simp only [thresh]; omega) (by rw [ha, hc])
              | ok ares =>
                rw [ha] at hc
                simp only [Except.bind, Bind.bind, Monad.toBind, Except.instMonad] at hc
                obtain ⟨c, rfl⟩ := blockRun_elseScan_contents n _ _ ha
                simp at hc
    | scan items =>
      cases items with
      | nil => simp [blockRun]
      | cons b rest =>
        have hth2 : 2 * (tcB b + tcS rest) + 3 ≤ n + 1 := by
          simpa [thresh, tcS_cons] using hth
        have hpb := tcB_pos b
        have hgen : ((do
            let v2 ← blockRun n (.parse b)
            (match v2 with
              | .node vn => do
                let r ← blockRun n (.scan rest)
                (match r with
                  | .scanRes vs found =>
                    .ok (.scanRes (vn :: vs) (found.map (fun t => (t.1, t.2.1, t.2.2 + 1))))
                  | _ => .error .fuel)
              | _ => .error .fuel) : Except Err BRes)) ≠ .error .fuel := by
          intro hc
          cases hp : blockRun n (.parse b) with
          | error e =>
            rw [hp] at hc
            simp [Except.bind, Bind.bind, Monad.toBind, Except.instMonad] at hc
            exact ih (.parse b) (by simp only [thresh]; omega) (by rw [hp, hc])
          | ok pv =>
            rw [hp] at hc
            simp only [Except.bind, Bind.bind, Monad.toBind, Except.instMonad] at hc
            obtain ⟨vn, rfl⟩ := blockRun_parse_node n _ _ hp
            try simp only [] at hc
            cases hr : blockRun n (.scan rest) with
            | error e =>
              rw [hr] at hc
              simp [Except.bind, Bind.bind, Monad.toBind, Except.instMonad] at hc
              exact ih (.scan rest) (by simp only [thresh]; omega) (by rw [hr, hc])
            | ok rres =>
              rw [hr] at hc
              simp only [Except.bind, Bind.bind, Monad.toBind, Except.instMonad] at hc
              obtain ⟨vs, found, rfl⟩ := blockRun_scan_shape n _ _ hr
              simp at hc
        cases b with
        | tup l num => simp [blockRun]
        | line l =>
          simp only [blockRun]
          exact hgen
        | blk cls block hd kw cn =>
          simp only [blockRun]
          exact hgen
    | elseScan items =>
      cases items with
      | nil => simp [blockRun]
      | cons b rest =>
        have hth2 : 2 * (tcB b + tcS rest) + 3 ≤ n + 1 := by
          simpa [thresh, tcS_cons] using hth
        have hpb := tcB_pos b
        have hgen : ((do
            let v2 ← blockRun n (.parse b)
            (match v2 with
              | .node vn => do
                let r ← blockRun n (.elseScan rest)
                (match r with
                  | .contents vs => .ok (.contents (vn :: vs))
                  | _ => .error .fuel)
              | _ => .error .fuel) : Except Err BRes)) ≠ .error .fuel := by
          intro hc
          cases hp : blockRun n (.parse b) with
          | error e =>
            rw [hp] at hc
            simp [Except.bind, Bind.bind, Monad.toBind, Except.instMonad] at hc
            exact ih (.parse b) (by simp only [thresh]; omega) (by rw [hp, hc])
          | ok pv =>
            rw [hp] at hc
            simp only [Except.bind, Bind.bind, Monad.toBind, Except.instMonad] at hc
            obtain ⟨vn, rfl⟩ := blockRun_parse_node n _ _ hp
            try simp only [] at hc
            cases hr : blockRun n (.elseScan rest) with
            | error e =>
              rw [hr] at hc
              simp [Except.bind, Bind.bind, Monad.toBind, Except.instMonad] at hc
              exact ih (.elseScan rest) (by simp only [thresh]; omega) (by rw [hr, hc])
            | ok rres =>
              rw [hr] at hc
              simp only [Except.bind, Bind.bind, Monad.toBind, Except.instMonad] at hc
              obtain ⟨vs, rfl⟩ := blockRun_elseScan_contents n _ _ hr
              simp at hc
        cases b with
        | tup l num => simp [blockRun]
        | line l =>
          simp only [blockRun]
          exact hgen
        | blk cls block hd kw cn =>
          simp only [blockRun]
          exact hgen
    | ifInit block =>
      have hth2 : 2 * tcS block + 3 ≤ n + 1 := by simpa [thresh] using hth
      simp only [blockRun]
      intro hc
      cases hch : childHeader block with
      | error e =>
        rw [hch] at hc
        simp [Except.bind, Bind.bind, Monad.toBind, Except.instMonad] at hc
        exact childHeader_noFuel block (by rw [hch, hc])
      | ok pr =>
        rcases pr with ⟨hd, kw⟩
        rw [hch] at hc
        simp only [Except.bind, Bind.bind, Monad.toBind, Except.instMonad] at hc
        cases block with
        | nil =>
          exact absurd hch (by
            simp [childHeader, pyGet, Except.bind, Bind.bind, Monad.toBind, Except.instMonad])
        | cons b0 bs =>
          have hth3 : 2 * (tcB b0 + tcS bs) + 3 ≤ n + 1 := by
            simpa [tcS_cons] using hth2
          have hpb := tcB_pos b0
          cases hev : blockRun n (.evalLine ((b0 :: bs).drop 1)) with
          | error e =>
            rw [hev] at hc
            simp [Except.bind, Bind.bind, Monad.toBind, Except.instMonad] at hc
            exact ih (.evalLine ((b0 :: bs).drop 1))
              (by simp only [thresh, List.drop_succ_cons, List.drop_zero]; omega)
              (by rw [hev, hc])
          | ok w =>
            rw [hev] at hc
            simp [Except.bind, Bind.bind, Monad.toBind, Except.instMonad] at hc
    | evalLine items =>
      simp only [blockRun]
      exact ih (.evalItems items true [.pyList []])
        (by simp only [thresh] at hth; simp only [thresh]; omega)
    | evalItems items created cs =>
      cases items with
      | nil => simp [blockRun]
      | cons b rest =>
        have hth2 : 2 * (tcB b + tcS rest) + 3 ≤ n + 1 := by
          simpa [thresh, tcS_cons] using hth
        have hpb := tcB_pos b
        cases b with
        | tup l num =>
          simp only [blockRun]
          try simp only []
          by_cases hl : pyStrip l = "\x7d"
          · simp only [hl, ne_eq, not_true_eq_false, if_false]
            exact ih _ (by simp only [thresh]; omega)
          · simp only [ne_eq, hl, not_false_eq_true, if_true, if_pos]
            exact ih _ (by simp only [thresh]; omega)
        | line l =>
          simp only [blockRun]
          try simp only []
          intro hc
          cases created with
          | true =>
            simp only [if_true] at hc
            cases hp : Line.parse l with
            | error e =>
              rw [hp] at hc
              simp [Except.bind, Bind.bind, Monad.toBind, Except.instMonad] at hc
              exact Line_parse_noFuel l (by rw [hp, hc])
            | ok vn =>
              rw [hp] at hc
              simp only [Except.bind, Bind.bind, Monad.toBind, Except.instMonad] at hc
              cases happ : appendLast cs vn with
              | error e =>
                rw [happ] at hc
                simp [Except.bind, Bind.bind, Monad.toBind, Except.instMonad] at hc
                exact appendLast_noFuel cs vn (by rw [happ, hc])
              | ok c3 =>
                rw [happ] at hc
                simp only [Except.bind, Bind.bind, Monad.toBind, Except.instMonad] at hc
                exact ih _ (by simp only [thresh]; omega) hc
          | false =>
            simp only [Bool.false_eq_true, if_false] at hc
            cases hp : Line.parse l with
            | error e =>
              rw [hp] at hc
              simp [Except.bind, Bind.bind, Monad.toBind, Except.instMonad] at hc
              exact Line_parse_noFuel l (by rw [hp, hc])
            | ok vn =>
              rw [hp] at hc
              simp only [Except.bind, Bind.bind, Monad.toBind, Except.instMonad] at hc
              exact ih _ (by simp only [thresh]; omega) hc
        | blk cls block hd kw cn =>
          simp only [blockRun]
          try simp only []
          intro hc
          cases hp : blockRun n (.parse (.blk cls block hd kw cn)) with
          | error e =>
            rw [hp] at hc
            simp [Except.bind, Bind.bind, Monad.toBind, Except.instMonad] at hc
            exact ih (.parse (.blk cls block hd kw cn))
              (by simp only [thresh]; omega) (by rw [hp, hc])
          | ok pv =>
            rw [hp] at hc
            simp only [Except.bind, Bind.bind, Monad.toBind, Except.instMonad] at hc
            obtain ⟨vn, rfl⟩ := blockRun_parse_node n _ _ hp
            try simp only [] at hc
            cases happ : appendLast cs vn with
            | error e =>
              rw [happ] at hc
              simp [Except.bind, Bind.bind, Monad.toBind, Except.instMonad] at hc
              exact appendLast_noFuel cs vn (by rw [happ, hc])
            | ok c3 =>
              rw [happ] at hc
              simp only [Except.bind, Bind.bind, Monad.toBind, Except.instMonad] at hc
              exact ih _ (by simp only [thresh]; omega) hc

/-- Bookkeeping invariant of the Block Nester: a successful run extends the
visited list by consumed line numbers only, each consumed number kills at
least one unconsumed input entry, and the produced nesting carries at most
three counted nodes per consumed entry. -/
theorem create_blocks_spec : ∀ (fuel : Nat) (fl : List (String × Int)) (vis : List Int)
    (c : List BItem) (cs : List BItem) (vis2 : List Int),
    create_blocks fuel fl vis c = .ok (cs, vis2) →
    ∃ ext, vis2 = vis ++ ext ∧
      uvCount fl vis2 + ext.length ≤ uvCount fl vis ∧
      tcS cs ≤ tcS c + 3 * ext.length := by
  intro fuel
  induction fuel with
  | zero => intro fl vis c cs vis2 h; simp [create_blocks] at h
  | succ n ih =>
    intro fl vis c cs vis2 h
    cases fl with
    | nil =>
      simp only [create_blocks] at h
      have hinj := Except.ok.inj h
      have hcc : c = cs := congrArg Prod.fst hinj
      have hvv : vis = vis2 := congrArg Prod.snd hinj
      refine ⟨[], by rw [← hvv]; simp, by simp [uvCount], by rw [← hcc]; omega⟩
    | cons p rest =>
      rcases p with ⟨l, num⟩
      simp only [create_blocks] at h
      by_cases hv : num ∈ vis
      · rw [if_pos hv] at h
        obtain ⟨ext, he1, he2, he3⟩ := ih rest vis c cs vis2 h
        refine ⟨ext, he1, ?_, he3⟩
        have hv2 : num ∈ vis2 := by rw [he1]; exact List.mem_append.mpr (Or.inl hv)
        rw [uv_cons, uv_cons]
        simp only [hv, hv2, if_true, if_pos]
        omega
      · rw [if_neg hv] at h
        try simp only [] at h
        have e4 : uvCount ((l, num) :: rest) vis = 1 + uvCount rest vis := by
          rw [uv_cons]; simp [hv]
        by_cases hbr : strHas l "\x7b"
        · rw [if_pos hbr] at h
          by_cases hbc : strHas l "\x7d"
          · rw [if_pos hbc] at h
            obtain ⟨ext, he1, he2, he3⟩ := ih rest (vis ++ [num]) _ cs vis2 h
            have hnum2 : num ∈ vis2 := by
              rw [he1]
              exact List.mem_append.mpr (Or.inl (List.mem_append.mpr (Or.inr (by simp))))
            refine ⟨num :: ext, ?_, ?_, ?_⟩
            · rw [he1]; simp
            · have hmono := uv_append rest vis [num]
              have e1 : uvCount ((l, num) :: rest) vis2 = uvCount rest vis2 := by
                rw [uv_cons]; simp [hnum2]
              rw [e1, e4]
              simp only [List.length_cons]
              omega
            · have htup : tcS (c ++ [BItem.tup l num]) = tcS c + 1 := by
                simp [tcS_append, tcS, tcB]
              rw [htup] at he3
              simp only [List.length_cons]
              omega
          · rw [if_neg hbc] at h
            cases hmk : Block.makeOpen l num with
            | error e =>
              rw [hmk] at h
              simp [Except.bind, Bind.bind, Monad.toBind, Except.instMonad] at h
            | ok trip =>
              rcases trip with ⟨cls, hd, kw⟩
              rw [hmk] at h
              simp only [Except.bind, Bind.bind, Monad.toBind, Except.instMonad] at h
              try simp only [] at h
              cases hch : create_blocks n ((l, num) :: rest) (vis ++ [num]) [] with
              | error e =>
                rw [hch] at h
                simp [Except.bind, Bind.bind, Monad.toBind, Except.instMonad] at h
              | ok pr2 =>
                rcases pr2 with ⟨children, vis3⟩
                rw [hch] at h
                simp only [Except.bind, Bind.bind, Monad.toBind, Except.instMonad] at h
                try simp only [] at h
                cases hbrun : blockRun n (.evalLine children) with
                | error e =>
                  rw [hbrun] at h
                  simp [Except.bind, Bind.bind, Monad.toBind, Except.instMonad] at h
                | ok bres =>
                  rw [hbrun] at h
                  simp only [Except.bind, Bind.bind, Monad.toBind, Except.instMonad] at h
                  obtain ⟨bcon, rfl⟩ := blockRun_evalLine_contents n _ _ hbrun
                  try simp only [] at h
                  obtain ⟨ext2, hch1, hch2, hch3⟩ := ih _ _ _ _ _ hch
                  obtain ⟨ext3, h31, h32, h33⟩ := ih _ _ _ _ _ h
                  have hnum3 : num ∈ vis3 := by
                    rw [hch1]
                    exact List.mem_append.mpr (Or.inl (List.mem_append.mpr (Or.inr (by simp))))
                  have hnum2 : num ∈ vis2 := by
                    rw [h31]
                    exact List.mem_append.mpr (Or.inl hnum3)
                  refine ⟨num :: (ext2 ++ ext3), ?_, ?_, ?_⟩
                  · rw [h31, hch1]
                    simp
                  · have hmono := uv_append rest vis [num]
                    have e1 : uvCount ((l, num) :: rest) vis2 = uvCount rest vis2 := by
                      rw [uv_cons]; simp [hnum2]
                    have e2 : uvCount ((l, num) :: rest) vis3 = uvCount rest vis3 := by
                      rw [uv_cons]; simp [hnum3]
                    have e3 : uvCount ((l, num) :: rest) (vis ++ [num]) =
                        uvCount rest (vis ++ [num]) := by
                      rw [uv_cons]; simp
                    rw [e1, e4]
                    rw [e2, e3] at hch2
                    simp only [List.length_cons, List.length_append]
                    omega
                  · have hblk : tcS (c ++ [BItem.blk cls (BItem.tup l num :: children)
                        hd kw bcon]) = tcS c + 3 + tcS children := by
                      rw [tcS_append]
                      have : tcS [BItem.blk cls (BItem.tup l num :: children) hd kw bcon] =
                          tcB (BItem.blk cls (BItem.tup l num :: children) hd kw bcon) := by
                        simp [tcS]
                      rw [this, tcB_blk, tcS_cons]
                      simp [tcB]
                      omega
                    have hz : tcS ([] : List BItem) = 0 := by simp [tcS]
                    rw [hz] at hch3
                    rw [hblk] at h33
                    simp only [List.length_cons, List.length_append]
                    omega
        · rw [if_neg hbr] at h
          by_cases hbc : strHas l "\x7d"
          · rw [if_pos hbc] at h
            have hinj := Except.ok.inj h
            have hcc : c ++ [BItem.tup "\x7d" num] = cs := congrArg Prod.fst hinj
            have hvv : vis ++ [num] = vis2 := congrArg Prod.snd hinj
            have hnum2 : num ∈ vis2 := by
              rw [← hvv]
              exact List.mem_append.mpr (Or.inr (by simp))
            refine ⟨[num], hvv.symm, ?_, ?_⟩
            · have hmono : uvCount rest vis2 ≤ uvCount rest vis := by
                rw [← hvv]
                exact uv_append rest vis [num]
              have e1 : uvCount ((l, num) :: rest) vis2 = uvCount rest vis2 := by
                rw [uv_cons]; simp [hnum2]
              rw [e1, e4]
              simp only [List.length_cons, List.length_nil]
              omega
            · have htup : tcS (c ++ [BItem.tup "\x7d" num]) = tcS c + 1 := by
                simp [tcS_append, tcS, tcB]
              rw [← hcc, htup]
              simp
          · rw [if_neg hbc] at h
            cases hlm : Line.make l num with
            | error e =>
              rw [hlm] at h
              simp [Except.bind, Bind.bind, Monad.toBind, Except.instMonad] at h
            | ok ln =>
              rw [hlm] at h
              simp only [Except.bind, Bind.bind, Monad.toBind, Except.instMonad] at h
              obtain ⟨ext, he1, he2, he3⟩ := ih rest (vis ++ [num]) _ cs vis2 h
              have hnum2 : num ∈ vis2 := by
                rw [he1]
                exact List.mem_append.mpr (Or.inl (List.mem_append.mpr (Or.inr (by simp))))
              refine ⟨num :: ext, ?_, ?_, ?_⟩
              · rw [he1]; simp
              · have hmono := uv_append rest vis [num]
                have e1 : uvCount ((l, num) :: rest) vis2 = uvCount rest vis2 := by
                  rw [uv_cons]; simp [hnum2]
                rw [e1, e4]
                simp only [List.length_cons]
                omega
              · have hline : tcS (c ++ [BItem.line ln]) = tcS c + 1 := by
                  simp [tcS_append, tcS, tcB]
                rw [hline] at he3
                simp only [List.length_cons]
                omega

/-- The Block Nester never exhausts its recursion allowance when seeded with
at least `cbBound`: its re-entrant recursion consumes an unconsumed input
entry per nesting step, so the allowance linear in entries times unconsumed
entries suffices. -/
theorem create_blocks_noFuel : ∀ (fuel : Nat) (fl : List (String × Int)) (vis : List Int)
    (c : List BItem), cbBound fl vis ≤ fuel →
    create_blocks fuel fl vis c ≠ .error .fuel := by
  intro fuel
  induction fuel with
  | zero =>
    intro fl vis c hF
    exfalso
    simp only [cbBound, Nat.le_zero] at hF
    have hpos := Nat.mul_pos (show 0 < fl.length + 1 by omega)
      (show 0 < uvCount fl vis + 5 by omega)
    omega
  | succ n ih =>
    intro fl vis c hF
    cases fl with
    | nil => simp [create_blocks]
    | cons p rest =>
      rcases p with ⟨l, num⟩
      simp only [cbBound, List.length_cons] at hF
      have hUL : uvCount rest vis ≤ rest.length := uv_le_length rest vis
      by_cases hv : num ∈ vis
      · simp only [create_blocks]
        rw [if_pos hv]
        apply ih
        have huv : uvCount ((l, num) :: rest) vis = uvCount rest vis := by
          rw [uv_cons]; simp [hv]
        rw [huv] at hF
        simp only [cbBound]
        exact cb_skip rest.length n (uvCount rest vis) hF
      · simp only [create_blocks]
        rw [if_neg hv]
        try simp only []
        have huv : uvCount ((l, num) :: rest) vis = 1 + uvCount rest vis := by
          rw [uv_cons]; simp [hv]
        rw [huv] at hF
        by_cases hbr : strHas l "\x7b"
        · rw [if_pos hbr]
          by_cases hbc : strHas l "\x7d"
          · rw [if_pos hbc]
            apply ih
            have hm := uv_append rest vis [num]
            simp only [cbBound]
            exact cb_step rest.length n (uvCount rest (vis ++ [num]))
              (1 + uvCount rest vis) (by omega) hF
          · rw [if_neg hbc]
            intro hc
            cases hmk : Block.makeOpen l num with
            | error e =>
              rw [hmk] at hc
              simp [Except.bind, Bind.bind, Monad.toBind, Except.instMonad] at hc
              exact Block_makeOpen_noFuel l num (by rw [hmk, hc])
            | ok trip =>
              rcases trip with ⟨cls, hd, kw⟩
              rw [hmk] at hc
              simp only [Except.bind, Bind.bind, Monad.toBind, Except.instMonad] at hc
              try simp only [] at hc
              cases hch : create_blocks n ((l, num) :: rest) (vis ++ [num]) [] with
              | error e =>
                rw [hch] at hc
                simp [Except.bind, Bind.bind, Monad.toBind, Except.instMonad] at hc
                have hm : uvCount ((l, num) :: rest) (vis ++ [num]) + 1 ≤
                    1 + uvCount rest vis := by
                  have e1 : uvCount ((l, num) :: rest) (vis ++ [num]) =
                      uvCount rest (vis ++ [num]) := by
                    rw [uv_cons]; simp
                  have hm2 := uv_append rest vis [num]
                  omega
                exact ih ((l, num) :: rest) (vis ++ [num]) [] (by
                    simp only [cbBound, List.length_cons]
                    exact cb_child rest.length n _ _ hm hF)
                  (by rw [hch, hc])
              | ok pr2 =>
                rcases pr2 with ⟨children, vis3⟩
                rw [hch] at hc
                simp only [Except.bind, Bind.bind, Monad.toBind, Except.instMonad] at hc
                try simp only [] at hc
                obtain ⟨ext2, hch1, hch2, hch3⟩ := create_blocks_spec n _ _ _ _ _ hch
                have hz : tcS ([] : List BItem) = 0 := by simp [tcS]
                rw [hz] at hch3
                have hext : ext2.length + 1 ≤ 1 + uvCount rest vis := by
                  have e1 : uvCount ((l, num) :: rest) (vis ++ [num]) =
                      uvCount rest (vis ++ [num]) := by
                    rw [uv_cons]; simp
                  have hm2 := uv_append rest vis [num]
                  omega
                cases hbrun : blockRun n (.evalLine children) with
                | error e =>
                  rw [hbrun] at hc
                  simp [Except.bind, Bind.bind, Monad.toBind, Except.instMonad] at hc
                  refine blockRun_noFuel n (.evalLine children) ?_ (by rw [hbrun, hc])
                  simp only [thresh]
                  exact cb_eval rest.length n (1 + uvCount rest vis) ext2.length
                    (tcS children) (by omega) hext (by omega) hF
                | ok bres =>
                  rw [hbrun] at hc
                  simp only [Except.bind, Bind.bind, Monad.toBind, Except.instMonad] at hc
                  obtain ⟨bcon, rfl⟩ := blockRun_evalLine_contents n _ _ hbrun
                  try simp only [] at hc
                  have hX3 : uvCount rest vis3 + 1 ≤ 1 + uvCount rest vis := by
                    rw [hch1]
                    have hm1 := uv_append rest (vis ++ [num]) ext2
                    have hm2 := uv_append rest vis [num]
                    omega
                  exact ih _ _ _ (by
                      simp only [cbBound]
                      exact cb_step rest.length n _ _ hX3 hF) hc
        · rw [if_neg hbr]
          by_cases hbc : strHas l "\x7d"
          · rw [if_pos hbc]
            simp
          · rw [if_neg hbc]
            intro hc
            cases hlm : Line.make l num with
            | error e =>
              rw [hlm] at hc
              simp [Except.bind, Bind.bind, Monad.toBind, Except.instMonad] at hc
              exact Line_make_noFuel l num (by rw [hlm, hc])
            | ok ln =>
              rw [hlm] at hc
              simp only [Except.bind, Bind.bind, Monad.toBind, Except.instMonad] at hc
              have hm : uvCount rest (vis ++ [num]) + 1 ≤ 1 + uvCount rest vis := by
                have := uv_append rest vis [num]
                omega
              exact ih _ _ _ (by
                  simp only [cbBound]
                  exact cb_step rest.length n _ _ hm hF) hc

/-- Claim C3 (confirmed): a well-formed if/else-if/.../else chain of any
length parses to right-nested If nodes — each continuation re-parsed from
the closer marker with its `} else ` prefix stripped and stored as the sole
element of the enclosing node's else body — terminating in the flat else
body of the final `else`.  Chains are given by a head condition and body,
a list of `else if` links (condition and body each paired with their parse
results), and the final else body; well-formedness is expressed by the
string-level side conditions each link's marker line satisfies. -/
theorem claim_C3 (links : List ((String × Node) × List (Line × Node))) :
    ∀ (fuel : Nat) (c0 : String) (e0 : Node) (b0 : List (Line × Node))
      (elseB : List (Line × Node)),
    ifHeaderExpr ("if " ++ c0 ++ " ") = .ok e0 →
    (∀ p ∈ b0, Line.parse p.1 = .ok p.2) →
    (∀ p ∈ elseB, Line.parse p.1 = .ok p.2) →
    (∀ lk ∈ links,
      ifHeaderExpr ("if " ++ lk.1.1 ++ " ") = .ok lk.1.2 ∧
      upToBrace ("if " ++ lk.1.1 ++ " \x7b") = some ("if " ++ lk.1.1 ++ " ") ∧
      splitWs ("if " ++ lk.1.1 ++ " ") ≠ [] ∧
      pyReplace (elseIfLine lk.1.1) "\x7d else " "" = "if " ++ lk.1.1 ++ " \x7b" ∧
      pyGet (splitWs (elseIfLine lk.1.1)) 1 = .ok "else" ∧
      pyGet (splitWs (elseIfLine lk.1.1)) 2 = .ok "if" ∧
      strHas (elseIfLine lk.1.1) "if" = true ∧
      ∀ p ∈ lk.2, Line.parse p.1 = .ok p.2) →
    (chainBlock c0 (b0.map Prod.fst)
        (links.map fun lk => (lk.1.1, lk.2.map Prod.fst)) (elseB.map Prod.fst)).length
      + 4 * links.length + 12 ≤ fuel →
    blockRun fuel (.ifp ("if " ++ c0 ++ " ")
      (chainBlock c0 (b0.map Prod.fst)
        (links.map fun lk => (lk.1.1, lk.2.map Prod.fst)) (elseB.map Prod.fst))) =
      .ok (.node (nestedIf e0 (b0.map Prod.snd)
        (links.map fun lk => (lk.1.2, lk.2.map Prod.snd)) (elseB.map Prod.snd))) := by
  induction links with
  | nil =>
    intro fuel c0 e0 b0 elseB hc0 hb0 helse _ hfuel
    cases fuel with
    | zero => omega
    | succ n =>
      simp only [List.map_nil] at hfuel
      have hlen : (chainBlock c0 (b0.map Prod.fst) [] (elseB.map Prod.fst)).length =
          b0.length + elseB.length + 3 := by
        simp [chainBlock, chainItems]
        omega
      rw [hlen] at hfuel
      have hmm : (b0.map Prod.fst).map BItem.line = b0.map fun p => BItem.line p.1 := by
        simp [List.map_map]
      have hmm2 : (elseB.map Prod.fst).map BItem.line =
          elseB.map fun p => BItem.line p.1 := by
        simp [List.map_map]
      have hscan := blockRun_scan_lines b0 "\x7d else \x7b" 0
        ((elseB.map Prod.fst).map BItem.line ++ [BItem.tup "\x7d" 0]) n hb0 (by omega)
      have helsescan := blockRun_elseScan_lines elseB [BItem.tup "\x7d" 0]
        (Or.inr ⟨"\x7d", 0, [], rfl⟩) n helse (by omega)
      rw [← hmm] at hscan
      rw [← hmm2] at helsescan
      simp only [List.map_nil, chainBlock, chainItems]
      simp only [blockRun]
      rw [hc0]
      rw [show ((BItem.tup ("if " ++ c0 ++ " \x7b") 0 :: ((b0.map Prod.fst).map BItem.line ++
        (BItem.tup "\x7d else \x7b" 0 :: ((elseB.map Prod.fst).map BItem.line ++
          [BItem.tup "\x7d" 0])))) : List BItem).drop 1 =
        (b0.map Prod.fst).map BItem.line ++ (BItem.tup "\x7d else \x7b" 0 ::
          ((elseB.map Prod.fst).map BItem.line ++ [BItem.tup "\x7d" 0])) from rfl]
      rw [hscan]
      simp only [List.map_map] at helsescan
      have hdrop2 : (List.map (BItem.line ∘ Prod.fst) b0 ++
          BItem.tup "\x7d else \x7b" 0 :: (List.map (BItem.line ∘ Prod.fst) elseB ++
            [BItem.tup "\x7d" 0])).drop (b0.length + 1) =
          List.map (BItem.line ∘ Prod.fst) elseB ++ [BItem.tup "\x7d" 0] := by
        rw [show b0.length + 1 = (List.map (BItem.line ∘ Prod.fst) b0).length + 1 from
          by simp, List.drop_append 1, List.drop_succ_cons, List.drop_zero]
      simp [Except.bind, Bind.bind, Monad.toBind, Except.instMonad,
        show strHas "\x7d else \x7b" "if" = false from rfl, hdrop2, helsescan, nestedIf]
  | cons lk links ihl =>
    intro fuel c0 e0 b0 elseB hc0 hb0 helse hlinks hfuel
    obtain ⟨hc1, hbr1, hne1, hstrip1, hget1, hget2, hhas1, hb1⟩ := hlinks lk (by simp)
    cases fuel with
    | zero => omega
    | succ n =>
      have hlenEq : (chainBlock c0 (b0.map Prod.fst)
          (((lk :: links).map fun lk => (lk.1.1, lk.2.map Prod.fst)))
          (elseB.map Prod.fst)).length =
          1 + b0.length + (1 + lk.2.length +
            (chainItems (links.map fun lk => (lk.1.1, lk.2.map Prod.fst))
              (elseB.map Prod.fst)).length) := by
        simp [chainBlock, chainItems]
        omega
      rw [hlenEq] at hfuel
      simp only [List.length_cons] at hfuel
      have hrest := chainItems_parse links elseB
        (fun lk2 h2 => (hlinks lk2 (by simp [h2])).2.2.2.2.2.2.2) helse
      have hmm : (b0.map Prod.fst).map BItem.line = b0.map fun p => BItem.line p.1 := by
        simp [List.map_map]
      have hscan := blockRun_scan_lines b0 (elseIfLine lk.1.1) 0
        ((lk.2.map Prod.fst).map BItem.line ++
          chainItems (links.map fun lk => (lk.1.1, lk.2.map Prod.fst))
            (elseB.map Prod.fst)) n hb0 (by omega)
      rw [← hmm] at hscan
      have hinitItems : ∀ b ∈ (lk.2.map Prod.fst).map BItem.line ++
          chainItems (links.map fun lk => (lk.1.1, lk.2.map Prod.fst))
            (elseB.map Prod.fst),
          (∃ t z2, b = BItem.tup t z2) ∨
            ∃ l v, b = BItem.line l ∧ Line.parse l = .ok v := by
        intro b hbmem
        rcases List.mem_append.mp hbmem with h1 | h2
        · simp only [List.mem_map] at h1
          obtain ⟨l2, ⟨p, hp, rfl⟩, rfl⟩ := h1
          exact Or.inr ⟨p.1, p.2, rfl, hb1 p hp⟩
        · exact hrest b h2
      have hinitLen : ((lk.2.map Prod.fst).map BItem.line ++
          chainItems (links.map fun lk => (lk.1.1, lk.2.map Prod.fst))
            (elseB.map Prod.fst)).length + 3 ≤ n := by
        simp only [List.length_append, List.length_map]
        omega
      have hinit := blockRun_ifInit_lines ("if " ++ lk.1.1 ++ " \x7b") 0
        ((lk.2.map Prod.fst).map BItem.line ++
          chainItems (links.map fun lk => (lk.1.1, lk.2.map Prod.fst))
            (elseB.map Prod.fst)) ("if " ++ lk.1.1 ++ " ") n hbr1 hne1 hinitItems hinitLen
      have hih := ihl n lk.1.1 lk.1.2 lk.2 elseB hc1 hb1 helse
        (fun lk2 h2 => hlinks lk2 (by simp [h2]))
        (by
          simp only [chainBlock, List.length_cons, List.length_append, List.length_map]
          omega)
      simp only [chainBlock] at hih
      simp only [List.map_cons, chainBlock, chainItems]
      simp only [blockRun]
      rw [hc0]
      rw [show ((BItem.tup ("if " ++ c0 ++ " \x7b") 0 :: ((b0.map Prod.fst).map BItem.line ++
        (BItem.tup (elseIfLine lk.1.1) 0 :: ((lk.2.map Prod.fst).map BItem.line ++
          chainItems (links.map fun lk => (lk.1.1, lk.2.map Prod.fst))
            (elseB.map Prod.fst))))) : List BItem).drop 1 =
        (b0.map Prod.fst).map BItem.line ++
        (BItem.tup (elseIfLine lk.1.1) 0 :: ((lk.2.map Prod.fst).map BItem.line ++
          chainItems (links.map fun lk => (lk.1.1, lk.2.map Prod.fst))
            (elseB.map Prod.fst))) from rfl]
      rw [hscan]
      simp only [List.map_map] at hinit hih
      have hdropComp : (List.map (BItem.line ∘ Prod.fst) b0 ++
          BItem.tup (elseIfLine lk.1.1) 0 :: (List.map (BItem.line ∘ Prod.fst) lk.2 ++
            chainItems (links.map fun lk => (lk.1.1, lk.2.map Prod.fst))
              (elseB.map Prod.fst))).drop (b0.length + 1) =
          List.map (BItem.line ∘ Prod.fst) lk.2 ++
            chainItems (links.map fun lk => (lk.1.1, lk.2.map Prod.fst))
              (elseB.map Prod.fst) := by
        rw [show b0.length + 1 = (List.map (BItem.line ∘ Prod.fst) b0).length + 1 from
          by simp, List.drop_append 1, List.drop_succ_cons, List.drop_zero]
      simp [Except.bind, Bind.bind, Monad.toBind, Except.instMonad, hhas1, hget1, hget2,
        hstrip1, hdropComp, hinit, hih, nestedIf]

/-- Claim C3 witness: a concrete two-link chain (if / else if / else if /
else) parses to the two right-nested If continuations with the final flat
else body. -/
theorem claim_C3_witness :
    blockRun 60 (.ifp ("if " ++ "(v) is (0)" ++ " ")
      (chainBlock "(v) is (0)"
        [{ line := "display 1", number := 2,
           strs := [.str "display", .toks ["1"]], keyword := "display" }]
        [("(v) is (1)",
          [{ line := "display 2", number := 4,
             strs := [.str "display", .toks ["2"]], keyword := "display" }]),
         ("(v) is (2)",
          [{ line := "display 3", number := 6,
             strs := [.str "display", .toks ["3"]], keyword := "display" }])]
        [{ line := "display 4", number := 8,
           strs := [.str "display", .toks ["4"]], keyword := "display" }])) =
      .ok (.node (nestedIf (.binOp "is" (.var "v") (.numLit 0))
        [.display (.numLit 1)]
        [(.binOp "is" (.var "v") (.numLit 1), [.display (.numLit 2)]),
         (.binOp "is" (.var "v") (.numLit 2), [.display (.numLit 3)])]
        [.display (.numLit 4)])) := by
  have h := claim_C3
    [(("(v) is (1)", Node.binOp "is" (.var "v") (.numLit 1)),
      [({ line := "display 2", number := 4,
          strs := [.str "display", .toks ["2"]], keyword := "display" },
        Node.display (.numLit 2))]),
     (("(v) is (2)", Node.binOp "is" (.var "v") (.numLit 2)),
      [({ line := "display 3", number := 6,
          strs := [.str "display", .toks ["3"]], keyword := "display" },
        Node.display (.numLit 3))])]
    60 "(v) is (0)" (.binOp "is" (.var "v") (.numLit 0))
    [({ line := "display 1", number := 2,
        strs := [.str "display", .toks ["1"]], keyword := "display" },
      Node.display (.numLit 1))]
    [({ line := "display 4", number := 8,
        strs := [.str "display", .toks ["4"]], keyword := "display" },
      Node.display (.numLit 4))]
    rfl
    (by
      intro p hp
      simp only [List.mem_singleton] at hp
      subst hp
      rfl)
    (by
      intro p hp
      simp only [List.mem_singleton] at hp
      subst hp
      rfl)
    (by
      intro lk hlk
      simp only [List.mem_cons, List.mem_singleton] at hlk
      rcases hlk with rfl | rfl | h2
      · exact ⟨rfl, rfl, by decide, rfl, rfl, rfl, rfl, by
          intro p hp
          simp only [List.mem_singleton] at hp
          subst hp
          rfl⟩
      · exact ⟨rfl, rfl, by decide, rfl, rfl, rfl, rfl, by
          intro p hp
          simp only [List.mem_singleton] at hp
          subst hp
          rfl⟩
      · cases h2)
    (by decide)
  exact h

/-- Claim C5 (code_bug): classification of a line whose first word is none
of set/reset/send/display/call is meant to fail with the taxonomy's keyword
error carrying the offending word, the original line text and its 1-based
number.  The source instead executes
`raise RamSyntaxKeywordException(keyword)` (parsing.py:94) with one argument
where the constructor (exceptions.py:32) requires
`(line, line_number, foreign)`, so Python raises TypeError; the top level
wraps it as the modelled GeneralError, and no keyword error carrying the
word and line context is ever produced. -/
theorem claim_C5 :
    get_line_as_list "frobnicate x" = .error kwCtorTypeError ∧
    Err.isRam kwCtorTypeError = false ∧
    mainParser [("frobnicate x", 1)] 50 =
      .error (.ramGeneral (render kwCtorTypeError)) :=
  ⟨rfl, rfl, rfl⟩

/-- Claim C7 (confirmed): the catch-all of `main_parser` passes a
`RamException` through unchanged, wraps any other exception as GeneralError
preserving its rendered message, leaves successes alone, and consequently
every error surfacing from `mainParser` belongs to the Ram taxonomy. -/
theorem claim_C7 (r : Except Err (List Node)) (fl : List (String × Int)) (fuel : Nat) :
    (∀ v, r = .ok v → mainCatch r = r) ∧
    (∀ e, r = .error e → e.isRam = true → mainCatch r = .error e) ∧
    (∀ e, r = .error e → e.isRam = false →
      mainCatch r = .error (.ramGeneral (render e))) ∧
    (∀ e2, mainCatch r = .error e2 → e2.isRam = true) ∧
    (∀ e2, mainParser fl fuel = .error e2 → e2.isRam = true) := by
  have hgen : ∀ (x : Except Err (List Node)) e2, mainCatch x = .error e2 →
      e2.isRam = true := by
    intro x e2 h
    cases x with
    | ok v => simp [mainCatch] at h
    | error e =>
      by_cases he : e.isRam
      · simp [mainCatch, he] at h
        subst h; exact he
      · simp [mainCatch, he] at h
        subst h; rfl
  refine ⟨?_, ?_, ?_, hgen r, ?_⟩
  · intro v hv; subst hv; rfl
  · intro e hv he; subst hv; simp [mainCatch, he]
  · intro e hv he; subst hv; simp [mainCatch, he]
  · intro e2 h
    unfold mainParser at h
    exact hgen _ e2 h

/-- Claim C7 witness: the catch-all at a concrete non-Ram failure. -/
theorem claim_C7_witness :
    mainCatch (.error (.typeError "boom")) =
      .error (.ramGeneral (render (.typeError "boom"))) :=
  (claim_C7 (.error (.typeError "boom")) [] 0).2.2.1 (.typeError "boom") rfl rfl

/-- Claim C8 counterexample: an error that already carries line context
(here line 5) is nevertheless re-wrapped by the except clause of
`Line.parse` with the enclosing line's context (line 3), so the claimed
"only if the error does not already carry line context" condition does not
govern the wrapping: the result differs from the unchanged inner error. -/
theorem claim_C8_counterexample :
    lineCatch "display x" 3 (.error (.ramSyntax "inner line" 5 none)) =
      .error (.ramException "display x" 3 (some "Line 5: \x27inner line\x27")) ∧
    (Err.ramException "display x" 3 (some "Line 5: \x27inner line\x27") ≠
      Err.ramSyntax "inner line" 5 none) :=
  ⟨rfl, by decide⟩

/-- Claim C8 (corrected): the except clause of `Line.parse` re-wraps every
propagating Ram exception unconditionally — also when it already carries
line context — with the enclosing line's text and number outermost, nesting
the inner error's rendered message (so the inner context survives inside the
message); non-Ram exceptions and successes pass through untouched. -/
theorem claim_C8 (line : String) (number : Int) (e : Err) (h : e.isRam = true) :
    lineCatch line number (.error e) =
      .error (.ramException line number (some (render e))) ∧
    (∀ e2, e2.isRam = false → lineCatch line number (.error e2) = .error e2) ∧
    (∀ v, lineCatch line number (.ok v) = .ok v) := by
  refine ⟨by simp [lineCatch, h], ?_, by intro v; rfl⟩
  intro e2 h2; simp [lineCatch, h2]

/-- Claim C8 witness: the unconditional re-wrap at a concrete inner error
that carries line context. -/
theorem claim_C8_witness :
    lineCatch "display y" 7 (.error (.ramSyntaxOperator "inner" 4 "+")) =
      .error (.ramException "display y" 7
        (some (render (.ramSyntaxOperator "inner" 4 "+")))) :=
  (claim_C8 "display y" 7 (.ramSyntaxOperator "inner" 4 "+") rfl).1

/-- Claim C10 counterexample: an unrecognized opener keyword aborts block
construction, but not with a keyword error of the taxonomy: the 1-argument
`RamSyntaxKeywordException(self.keyword)` call (parsing.py:185) raises
TypeError, which is not a Ram exception. -/
theorem claim_C10_counterexample :
    Block.makeOpen "frobnicate \x7b" 4 = .error kwCtorTypeError ∧
    Err.isRam kwCtorTypeError = false :=
  ⟨rfl, rfl⟩

/-- Claim C10 (corrected): every block construction that succeeds yields one
of the three runtime classes loop/function/if, and for those classes the
parse dispatch runs the corresponding variant parser — the base
`Block.parse` (NotImplementedError) branch is never taken; an unrecognized
opener keyword aborts construction, though with a TypeError rather than the
claimed keyword error. -/
theorem claim_C10 (l : String) (n : Int) (fuel : Nat) (cls header keyword kw0 : String)
    (tl2 : List String) (block : List BItem) (contents : List Node) :
    (Block.makeOpen l n = .ok (cls, header, keyword) →
      cls = "loop" ∨ cls = "function" ∨ cls = "if") ∧
    (blockRun (fuel + 1) (.parse (.blk "loop" block header keyword contents)) =
      (LoopBlock.parse header contents).map .node) ∧
    (blockRun (fuel + 1) (.parse (.blk "function" block header keyword contents)) =
      (FunctionBlock.parse header block contents).map .node) ∧
    (blockRun (fuel + 1) (.parse (.blk "if" block header keyword contents)) =
      blockRun fuel (.ifp header block)) ∧
    (splitWs l = kw0 :: tl2 → kw0 ≠ "loop" → kw0 ≠ "new" → kw0 ≠ "if" →
      Block.makeOpen l n = .error kwCtorTypeError) := by
  refine ⟨?_, rfl, rfl, rfl, ?_⟩
  · intro h
    unfold Block.makeOpen at h
    cases hg : pyGet (splitWs l) 0 with
    | error e =>
      rw [hg] at h
      simp [Except.bind, Bind.bind, Monad.toBind, Except.instMonad] at h
    | ok kw1 =>
      rw [hg] at h
      unfold blockCls at h
      by_cases h1 : kw1 = "loop"
      · simp [h1, Except.bind, Bind.bind, Monad.toBind, Except.instMonad] at h
        cases hch : childHeader [BItem.tup l n] with
        | error e2 => rw [hch] at h; exact absurd h (by simp)
        | ok v =>
          rw [hch] at h
          injection h with h2
          exact Or.inl (congrArg Prod.fst h2).symm
      · by_cases h2 : kw1 = "new"
        · simp [h1, h2, Except.bind, Bind.bind, Monad.toBind, Except.instMonad] at h
          cases hch : childHeader [BItem.tup l n] with
          | error e2 => rw [hch] at h; exact absurd h (by simp)
          | ok v =>
            rw [hch] at h
            injection h with h2
            exact Or.inr (Or.inl (congrArg Prod.fst h2).symm)
        · by_cases h3 : kw1 = "if"
          · simp [h1, h2, h3, Except.bind, Bind.bind, Monad.toBind, Except.instMonad] at h
            cases hch : childHeader [BItem.tup l n] with
            | error e2 => rw [hch] at h; exact absurd h (by simp)
            | ok v =>
              rw [hch] at h
              injection h with h2
              exact Or.inr (Or.inr (congrArg Prod.fst h2).symm)
          · simp [h1, h2, h3, Except.bind, Bind.bind, Monad.toBind, Except.instMonad] at h
  · intro hsw h1 h2 h3
    unfold Block.makeOpen
    have hg : pyGet (splitWs l) 0 = .ok kw0 := by rw [hsw]; rfl
    rw [hg]
    unfold blockCls
    simp [h1, h2, h3, Except.bind, Bind.bind, Monad.toBind, Except.instMonad]

/-- Claim C10 witness: the construction and the three dispatch equations at
a concrete loop opener. -/
theorem claim_C10_witness :
    ("loop" = "loop" ∨ "loop" = "function" ∨ "loop" = "if") ∧
    blockRun 6 (.parse (.blk "loop" [] "loop with j from (15) to (var1) " "loop" [])) =
      (LoopBlock.parse "loop with j from (15) to (var1) " []).map .node := by
  have h := claim_C10 "loop with j from (15) to (var1) \x7b" 1 5 "loop"
    "loop with j from (15) to (var1) " "loop" "loop" [] [] []
  exact ⟨h.1 rfl, h.2.1⟩

/-- Claim C1 counterexample: the concrete scenario of the claim — header
exactly `new function add takes (a, b)` with body ending
`send back a + b` — does not succeed: parsing the whole block fails (the
classified return line has five elements, so `parse_return` raises, and the
1-argument `RamSyntaxException` call even turns that raise into a
TypeError, surfaced as the modelled GeneralError). -/
theorem claim_C1_counterexample :
    mainParser [("new function add takes (a, b) \x7b", 1),
      ("send back a + b", 2), ("\x7d", 3)] 50 =
      .error (.ramGeneral (render synCtorTypeError)) ∧
    isOkB (mainParser [("new function add takes (a, b) \x7b", 1),
      ("send back a + b", 2), ("\x7d", 3)] 50) = false :=
  ⟨rfl, rfl⟩

/-- Claim C1 (corrected): the claimed header splits into 6 whitespace words
(`(a, b)` is two), so the exactly-5-words rule itself rejects it (via the
TypeError produced by the 1-argument malformed-header raise); with the
5-word header `new function add takes (a,b)` and the single-token return
line `send back a` (the only return shape `parse_return` accepts), parsing
succeeds and produces Function with name `add`, parameters `a`, `b`, an
empty body, and return expression Variable `a`. -/
theorem claim_C1 :
    (splitWs "new function add takes (a, b)").length = 6 ∧
    FunctionBlock.parse "new function add takes (a, b) "
      [.tup "new function add takes (a, b) \x7b" 1, .tup "\x7d" 3] [.pyList []] =
      .error synCtorTypeError ∧
    mainParser [("new function add takes (a,b) \x7b", 1),
      ("send back a", 2), ("\x7d", 3)] 50 =
      .ok [.functionDef "add" ["a", "b"] [] (.var "a")] :=
  ⟨rfl, rfl, rfl⟩

/-- Claim C2 counterexample: the three-line loop block does not parse to
`Loop('x', Literal(0), Literal(4), [Display(Variable('x'))])`: the body
carries one extra list layer, because `evaluate_line` groups parsed
statements into sublists and `LoopBlock.parse` passes `self.contents`
whole. -/
theorem claim_C2_counterexample :
    mainParser [("loop with x from 0 to 4 \x7b", 1), ("display x", 2), ("\x7d", 3)] 50 ≠
      .ok [.loop "x" (.numLit 0) (.numLit 4) [.display (.var "x")]] := by
  have h : mainParser [("loop with x from 0 to 4 \x7b", 1), ("display x", 2),
      ("\x7d", 3)] 50 =
      .ok [.loop "x" (.numLit 0) (.numLit 4) [.pyList [.display (.var "x")]]] := rfl
  rw [h]
  simp

/-- Claim C2 (corrected): for the well-formed header `loop with x from 0 to
4` the parse does split the text after `from ` on `to` (a substring split)
into the bounds `0` and `4` and returns a Loop node carrying whatever
contents `evaluate_line` computed — so the three-line block yields
`Loop('x', Literal(0), Literal(4), [[Display(Variable('x'))]])`, with the
body one list layer deeper than claimed; a wrong word at position 1 fails
with the TypeError produced by the 1-argument keyword-error call, not with a
keyword error. -/
theorem claim_C2 (contents : List Node) :
    LoopBlock.parse "loop with x from 0 to 4 " contents =
      .ok (.loop "x" (.numLit 0) (.numLit 4) contents) ∧
    pySplit "0 to 4 " "to" = ["0 ", " 4 "] ∧
    mainParser [("loop with x from 0 to 4 \x7b", 1), ("display x", 2), ("\x7d", 3)] 50 =
      .ok [.loop "x" (.numLit 0) (.numLit 4) [.pyList [.display (.var "x")]]] ∧
    LoopBlock.parse "loop by x from 0 to 4 " contents = .error kwCtorTypeError :=
  ⟨rfl, rfl, rfl, rfl⟩

/-- Claim C6 counterexample: on an input whose `{` is never closed,
`create_blocks` returns a normal result — it does not fail with any
block/syntax error (no UnterminatedBlock raise exists in process.py). -/
theorem claim_C6_counterexample :
    isOkB (create_blocks 50
      [("loop with x from 0 to 4 \x7b", 1), ("display x", 2)] [] []) = true :=
  rfl

/-- Claim C6 (corrected): on an input with an unmatched `{` the Block Nester
terminates and returns the nesting without error; the unterminated block
simply has no closer marker among its elements. -/
theorem claim_C6 :
    create_blocks 50 [("loop with x from 0 to 4 \x7b", 1), ("display x", 2)] [] [] =
      .ok ([.blk "loop"
        [.tup "loop with x from 0 to 4 \x7b" 1,
         .line { line := "display x", number := 2,
                 strs := [.str "display", .toks ["x"]], keyword := "display" }]
        "loop with x from 0 to 4 " "loop"
        [.pyList [.display (.var "x")]]], [1, 2]) ∧
    closerCount
      [.tup "loop with x from 0 to 4 \x7b" 1,
       .line { line := "display x", number := 2,
               strs := [.str "display", .toks ["x"]], keyword := "display" }] = 0 :=
  ⟨rfl, rfl⟩

/-- Claim C9 counterexample: a three-line input with balanced brace counts
(two `{`, two `}`, the last line holding both closers) whose outer produced
block ends with no closer at all at its own nesting level: the inner block
consumes the `}}` line as its single closer and the outer scan then exhausts
the input. -/
theorem claim_C9_counterexample :
    linesChCount [("loop with x from 0 to 4 \x7b", 1),
      ("loop with y from 0 to 4 \x7b", 2), ("\x7d\x7d", 3)] '\x7b' =
      linesChCount [("loop with x from 0 to 4 \x7b", 1),
        ("loop with y from 0 to 4 \x7b", 2), ("\x7d\x7d", 3)] '\x7d' ∧
    create_blocks 50 [("loop with x from 0 to 4 \x7b", 1),
      ("loop with y from 0 to 4 \x7b", 2), ("\x7d\x7d", 3)] [] [] =
      .ok ([.blk "loop"
        [.tup "loop with x from 0 to 4 \x7b" 1,
         .blk "loop" [.tup "loop with y from 0 to 4 \x7b" 2, .tup "\x7d" 3]
           "loop with y from 0 to 4 " "loop" [.pyList []]]
        "loop with x from 0 to 4 " "loop"
        [.pyList [.loop "y" (.numLit 0) (.numLit 4) [.pyList []]]]], [1, 2, 3]) ∧
    closerCount
      [.tup "loop with x from 0 to 4 \x7b" 1,
       .blk "loop" [.tup "loop with y from 0 to 4 \x7b" 2, .tup "\x7d" 3]
         "loop with y from 0 to 4 " "loop" [.pyList []]] = 0 :=
  ⟨rfl, rfl, rfl⟩

/-- Claim C9 (corrected): the Block Nester terminates on every finite input.
Formally, `create_blocks` never exhausts a recursion allowance of at least
`cbBound` — the computable bound of one allowance unit per input entry per
unconsumed entry (plus slack) — because each re-entrant nesting call strictly
decreases the count of input entries whose line numbers are not yet
consumed.  So the embedding-artifact fuel marker is never returned. -/
theorem claim_C9 (fuel : Nat) (file_lines : List (String × Int)) (visited : List Int)
    (contents : List BItem) (h : cbBound file_lines visited ≤ fuel) :
    create_blocks fuel file_lines visited contents ≠ .error .fuel :=
  create_blocks_noFuel fuel file_lines visited contents h

/-- Claim C9 witness: the allowance bound and the no-exhaustion conclusion at
a concrete three-line nested input. -/
theorem claim_C9_witness :
    cbBound [("loop with x from 0 to 4 \x7b", (1 : Int)), ("display x", 2),
      ("\x7d", 3)] [] ≤ 40 ∧
    create_blocks 40 [("loop with x from 0 to 4 \x7b", (1 : Int)), ("display x", 2),
      ("\x7d", 3)] [] [] ≠ .error .fuel :=
  ⟨by decide, claim_C9 40 _ _ _ (by decide)⟩

/-- Claim C4 counterexample: a function block whose final body line is not a
`send back <expr>` statement — here `display sender` — should per the claim
keep its body and get the Empty return expression; because the code tests
only the substring `send` (parsing.py:301), the line is fed to
`parse_return`, whose two-word split fails the three-element check and the
1-argument `RamSyntaxException` raise surfaces as TypeError: the parse
errors instead of returning the claimed Function. -/
theorem claim_C4_counterexample :
    FunctionBlock.parse "new function f takes (a) "
      [.tup "new function f takes (a) \x7b" 1,
       .line { line := "display sender", number := 2,
               strs := [.str "display", .toks ["sender"]], keyword := "display" },
       .tup "\x7d" 3]
      [.pyList [.display (.var "sender")]] = .error synCtorTypeError ∧
    (Except.error synCtorTypeError : Except Err Node) ≠
      .ok (.functionDef "f" ["a"] [.display (.var "sender")] .emptyExpr) :=
  ⟨rfl, by simp⟩

/-- Claim C4 (corrected): for every function block with a well-formed
5-word header, the element before the closer is treated as a return line iff
it is a Line whose raw text contains the substring `send`; when it does not,
the return expression is Empty and the body `contents[0]` is unchanged; when
it does, the line must whitespace-split into exactly
`['send', 'back', <one token>]` (anything else aborts the parse), the token's
expression becomes the return expression and `contents[0]` loses its last
element. -/
theorem claim_C4 (header nm ps : String) (block : List BItem)
    (ll : Line) (xs restC : List Node)
    (hh : splitWs header = ["new", "function", nm, "takes", ps])
    (hb : pyNeg2 block = .ok (.line ll)) :
    (strHas ll.line "send" = false →
      FunctionBlock.parse header block (.pyList xs :: restC) =
        .ok (.functionDef nm (paramNames ps) xs .emptyExpr)) ∧
    (∀ tok e, strHas ll.line "send" = true →
      splitWs ll.line = ["send", "back", tok] →
      parse_expression [.str tok] = .ok e →
      xs ≠ [] →
      FunctionBlock.parse header block (.pyList xs :: restC) =
        .ok (.functionDef nm (paramNames ps) xs.dropLast e)) := by
  constructor
  · intro hs
    unfold FunctionBlock.parse
    rw [hh, hb]
    simp [pyGet, Except.bind, Bind.bind, Monad.toBind, Except.instMonad, hs]
  · intro tok e hs hsp hp hne
    unfold FunctionBlock.parse
    rw [hh, hb]
    cases hxl : xs.getLast? with
    | none => exact absurd (List.getLast?_eq_none_iff.mp hxl) hne
    | some y =>
      simp [pyGet, Except.bind, Bind.bind, Monad.toBind, Except.instMonad, hs,
        parse_return, hsp, elemIsStr, hp, hxl]

/-- Claim C4 witness: both directions at concrete blocks — a genuine
three-word return line is removed and becomes the return expression, and a
send-free final line leaves the body whole with the Empty return. -/
theorem claim_C4_witness :
    FunctionBlock.parse "new function g takes (a,b) "
      [.tup "new function g takes (a,b) \x7b" 1,
       .line { line := "send back a", number := 2,
               strs := [.str "send", .str "back", .str "a"], keyword := "send" },
       .tup "\x7d" 3]
      [.pyList [.display (.numLit 1), .var "a"]] =
      .ok (.functionDef "g" (paramNames "(a,b)") [.display (.numLit 1)] (.var "a")) ∧
    FunctionBlock.parse "new function g takes (a,b) "
      [.tup "new function g takes (a,b) \x7b" 1,
       .line { line := "display 2", number := 2,
               strs := [.str "display", .toks ["2"]], keyword := "display" },
       .tup "\x7d" 3]
      [.pyList [.display (.numLit 2)]] =
      .ok (.functionDef "g" (paramNames "(a,b)") [.display (.numLit 2)] .emptyExpr) := by
  constructor
  · exact (claim_C4 "new function g takes (a,b) " "g" "(a,b)"
      [.tup "new function g takes (a,b) \x7b" 1,
       .line { line := "send back a", number := 2,
               strs := [.str "send", .str "back", .str "a"], keyword := "send" },
       .tup "\x7d" 3]
      { line := "send back a", number := 2,
        strs := [.str "send", .str "back", .str "a"], keyword := "send" }
      [.display (.numLit 1), .var "a"] [] rfl rfl).2 "a" (.var "a") rfl rfl rfl
      (by simp)
  · exact (claim_C4 "new function g takes (a,b) " "g" "(a,b)"
      [.tup "new function g takes (a,b) \x7b" 1,
       .line { line := "display 2", number := 2,
               strs := [.str "display", .toks ["2"]], keyword := "display" },
       .tup "\x7d" 3]
      { line := "display 2", number := 2,
        strs := [.str "display", .toks ["2"]], keyword := "display" }
      [.display (.numLit 2)] [] rfl rfl).1 rfl

end Ram
